import Mathlib

/-!
Verification development for the markdown-to-word export pipeline
(`markdown2word`).  The definitions below are a shallow embedding, translated
from the TypeScript sources:

* the LaTeX math pipeline (`parseLatexToStructure`, `buildMathTree`,
  `renderToDocxMath`, `convertLatexToDocxMath`) from
  `src/services/exportService.ts` (identical logic in the
  `src/unnamed/part_001` snapshot);
* the line-oriented markdown structural parser (`parseMarkdownToSections`,
  `parseTable`) from the canonical snapshot (the variant with blockquote and
  horizontal-rule support);
* the math dispatch of the document assembly driver (`parseParagraphContent`
  math branch and the block-math branch of `exportToDocx`) from the
  `src/unnamed/part_001` snapshot, whose `mathMode` values are
  `native`/`image`.

JavaScript strings are modelled as `List Char`; the recursive-descent LaTeX
parser uses a mutable cursor in the source, modelled here by passing the
remaining character list.  The mutually recursive cursor loops are embedded
as a single function structurally recursive on a fuel parameter (so that the
kernel can evaluate it); fuel exhaustion returns the input unchanged, and the
termination claim is settled by explicit progress theorems.
-/

namespace Markdown2Word

/-- Run style of a math text node (`'plain' | 'italic'` in the source;
`none` models the JavaScript `undefined` style of `^`/`_` marker nodes). -/
inductive MathStyle where
  | plain
  | italic
deriving DecidableEq, Repr

/-- The `MathNode` tagged union of `src/services/exportService.ts`
(lines 52-61). -/
inductive MathNode where
  | text (val : String) (style : Option MathStyle)
  | cmd (val : String)
  | group (children : List MathNode)
  | fraction (num den : List MathNode)
  | radical (deg : Option (List MathNode)) (children : List MathNode)
  | sum (sub sup : Option (List MathNode)) (isIntegral : Bool)
  | limit (base : String) (sub : List MathNode)
  | accent (accent : String) (children : List MathNode)
  | script (base : List MathNode) (sub sup : Option (List MathNode))
deriving Repr

compile_inductive% MathNode

/-- The `LATEX_MAP` symbol table (lines 23-48 of
`src/services/exportService.ts`): LaTeX command / literal character to
Unicode replacement.  `none` models a missing key; every present value is a
non-empty (truthy) string. -/
def LATEX_MAP : String → Option String
  | "theta" => some "θ"
  | "alpha" => some "α"
  | "beta" => some "β"
  | "gamma" => some "γ"
  | "delta" => some "δ"
  | "epsilon" => some "ε"
  | "lambda" => some "λ"
  | "mu" => some "μ"
  | "pi" => some "π"
  | "rho" => some "ρ"
  | "sigma" => some "σ"
  | "tau" => some "τ"
  | "phi" => some "φ"
  | "omega" => some "ω"
  | "Delta" => some "Δ"
  | "Sigma" => some "Σ"
  | "Omega" => some "Ω"
  | "infty" => some "∞"
  | "pm" => some "±"
  | "times" => some "×"
  | "div" => some "÷"
  | "neq" => some "≠"
  | "leq" => some "≤"
  | "geq" => some "≥"
  | "approx" => some "≈"
  | "cdot" => some "·"
  | "rightarrow" => some "→"
  | "leftarrow" => some "←"
  | "Rightarrow" => some "⇒"
  | "partial" => some "∂"
  | "nabla" => some "∇"
  | "dots" => some "…"
  | "cdots" => some "⋯"
  | "in" => some "∈"
  | "notin" => some "∉"
  | "subset" => some "⊂"
  | "subseteq" => some "⊆"
  | "forall" => some "∀"
  | "exists" => some "∃"
  | " " => some " "
  | "," => some ","
  | ";" => some ";"
  | "|" => some "|"
  | "=" => some "="
  | "+" => some "+"
  | "-" => some "-"
  | "<" => some "<"
  | ">" => some ">"
  | "(" => some "("
  | ")" => some ")"
  | "[" => some "["
  | "]" => some "]"
  | "\x7b" => some "\x7b"
  | "\x7d" => some "\x7d"
  | "/" => some "/"
  | _ => none

/-- The regex class `[a-zA-Z]` used to read a command name. -/
def isLatexLetter (c : Char) : Bool :=
  ('a' ≤ c && c ≤ 'z') || ('A' ≤ c && c ≤ 'Z')

/-- The JavaScript regex class `\s` restricted to the characters that can
occur in practice (space, tab, newline, carriage return, vertical tab,
form feed). -/
def isJsWs (c : Char) : Bool :=
  c = ' ' || c = '\t' || c = '\n' || c = '\r' || c = '\x0b' || c = '\x0c'

/-- The regex class `[0-9.]` used to read a numeral. -/
def isDigitDot (c : Char) : Bool :=
  ('0' ≤ c && c ≤ '9') || c = '.'

/-- `content.map(c => c.type === 'text' ? c.val : '').join('')` from the
`\text{...}` branch. -/
def textJoin (l : List MathNode) : String :=
  String.join (l.map fun n =>
    match n with
    | .text v _ => v
    | _ => "")

/-- Which of the mutually recursive cursor routines of
`parseLatexToStructure` is running: `pnext` is `parseNext`, `gloop` is the
`readGroup` loop after the opening brace was consumed, `oloop` is the
`readOptionalGroup` loop after the opening bracket was consumed, and
`operand` is the repeated operand pattern
`while (ws) cursor++; if (cursor at open brace) readGroup() else parseNext()`
used for the operands of `\frac`, `\sqrt` and the accents. -/
inductive PMode where
  | pnext
  | gloop
  | oloop
  | operand
deriving DecidableEq, Repr

/-- Reading a command name after the backslash: the maximal run of ASCII
letters, or, if empty, the single next character. -/
def readCmdName (rest : List Char) : String × List Char :=
  let sp := rest.span isLatexLetter
  if sp.1.isEmpty then
    match sp.2 with
    | [] => ("", [])
    | d :: r => (String.mk [d], r)
  else (String.mk sp.1, sp.2)

/-- The second half of the command dispatch of `parseNext` (`\sum` through
the `LATEX_MAP` fallback, `src/services/exportService.ts` lines 153-180),
abstracted over the recursive group-loop sub-parser `gloop`. -/
def parseCmdTail (gloop : List Char → List MathNode × List Char)
    (cmd : String) (r2 : List Char) : List MathNode × List Char :=
  if cmd == "sum" || cmd == "prod" then
    ([MathNode.sum none none false], r2)
  else if cmd == "int" then
    ([MathNode.sum none none true], r2)
  else if cmd == "lim" then
    ([MathNode.limit "lim" []], r2)
  else if ["log", "sin", "cos", "tan", "ln", "max", "min", "exp",
           "lim", "det", "sup", "inf"].contains cmd then
    ([MathNode.text cmd (some .plain)], r2)
  else if cmd == "text" then
    let s1 := r2.dropWhile isJsWs
    match s1 with
    | '\x7b' :: r3 =>
      let p := gloop r3
      ([MathNode.text (textJoin p.1) (some .plain)], p.2)
    | _ => ([MathNode.text "" (some .plain)], s1)
  else
    match LATEX_MAP cmd with
    | some v => ([MathNode.text v (some .plain)], r2)
    | none => ([MathNode.cmd cmd], r2)

/-- The command dispatch of `parseNext` (the `\` branch of
`src/services/exportService.ts` lines 101-181), abstracted over the three
recursive sub-parsers `gloop` (group loop after the opening brace),
`oloop` (optional-group loop after the opening bracket) and `operand`
(whitespace-skipping operand read). -/
def parseCmd (gloop oloop operand : List Char → List MathNode × List Char)
    (cmd : String) (r2 : List Char) : List MathNode × List Char :=
  if cmd == "left" || cmd == "right" then ([], r2)
  else if cmd == "," || cmd == ";" || cmd == " " || cmd == "quad" then
    ([MathNode.text " " (some .plain)], r2)
  else if cmd == "frac" then
    let p := operand r2
    let q := operand p.2
    ([MathNode.fraction p.1 q.1], q.2)
  else if cmd == "sqrt" then
    let s1 := r2.dropWhile isJsWs
    match s1 with
    | '[' :: r3 =>
      let p := oloop r3
      let q := operand p.2
      ([MathNode.radical (some p.1) q.1], q.2)
    | _ =>
      let q := operand r2
      ([MathNode.radical none q.1], q.2)
  else if ["vec", "bar", "hat", "dot", "ddot"].contains cmd then
    let p := operand r2
    ([MathNode.accent cmd p.1], p.2)
  else parseCmdTail gloop cmd r2

/-- The cursor routines of `parseLatexToStructure`
(`src/services/exportService.ts` lines 63-210) as one function structurally
recursive on fuel.  The pair returned is (emitted nodes, remaining input);
fuel exhaustion returns the input unchanged (it never happens for the fuel
budget used by `parseLatexToStructure`, see the progress theorems). -/
def parseRun : Nat → PMode → List Char → List MathNode × List Char
  | 0, _, s => ([], s)
  | f+1, .gloop, s =>
    match s with
    | [] => ([], [])
    | c :: rest =>
      if c == '\x7d' then ([], rest)
      else
        let p := parseRun f .pnext (c :: rest)
        let q := parseRun f .gloop p.2
        (p.1 ++ q.1, q.2)
  | f+1, .oloop, s =>
    match s with
    | [] => ([], [])
    | c :: rest =>
      if c == ']' then ([], rest)
      else
        let p := parseRun f .pnext (c :: rest)
        let q := parseRun f .oloop p.2
        (p.1 ++ q.1, q.2)
  | f+1, .operand, s =>
    let s1 := s.dropWhile isJsWs
    match s1 with
    | '\x7b' :: rest => parseRun f .gloop rest
    | _ => parseRun f .pnext s1
  | f+1, .pnext, s =>
    match s with
    | [] => ([], [])
    | c :: rest =>
      if c == '\x7b' then
        let p := parseRun f .gloop rest
        ([MathNode.group p.1], p.2)
      else if c == '\\' then
        let cr := readCmdName rest
        parseCmd (parseRun f .gloop) (parseRun f .oloop) (parseRun f .operand)
          cr.1 cr.2
      else if c == '^' || c == '_' then
        ([MathNode.text (String.mk [c]) none], rest)
      else if (LATEX_MAP (String.mk [c])).isSome then
        ([MathNode.text ((LATEX_MAP (String.mk [c])).getD "") (some .plain)], rest)
      else if isJsWs c then ([], rest)
      else if isDigitDot c then
        let sp := rest.span isDigitDot
        ([MathNode.text (String.mk (c :: sp.1)) (some .plain)], sp.2)
      else
        ([MathNode.text (String.mk [c]) (some .italic)], rest)

/-- The top-level scan `while (cursor < n) nodes.push(...parseNext())`. -/
def topLoopF : Nat → List Char → List MathNode
  | 0, _ => []
  | f+1, s =>
    match s with
    | [] => []
    | c :: rest =>
      let p := parseRun f .pnext (c :: rest)
      p.1 ++ topLoopF f p.2

/-- Fuel budget sufficient for a complete parse of `s` (each source
character accounts for at most one `parseNext` call plus one loop step). -/
def parseLatexFuel (s : List Char) : Nat := 3 * s.length + 3

/-- `parseLatexToStructure` (lines 63-217 of
`src/services/exportService.ts`). -/
def parseLatexToStructure (latex : String) : List MathNode :=
  topLoopF (parseLatexFuel latex.data) latex.data

/-- `buildMathTree` (lines 219-293) as a fuel-indexed structural recursion;
one fuel unit is spent per visited node, and the recursive resolution of a
`group` script operand (`flattenNode`, lines 295-298) uses the remaining
fuel. -/
def buildF : Nat → List MathNode → List MathNode
  | 0, _ => []
  | _+1, [] => []
  | f+1, current :: rest =>
    let flat : MathNode → List MathNode := fun n =>
      match n with
      | .group ch => buildF f ch
      | _ => [n]
    match current with
    | .limit base _ =>
      (match rest with
       | .text v _ :: sc :: rest2 =>
         if v == "_" then MathNode.limit base (flat sc) :: buildF f rest2
         else MathNode.text base (some .plain) :: buildF f rest
       | _ => MathNode.text base (some .plain) :: buildF f rest)
    | _ =>
      match rest with
      | .text m _ :: sc :: rest2 =>
        if m == "_" || m == "^" then
          let isSub := m == "_"
          let firstSub : Option (List MathNode) := if isSub then some (flat sc) else none
          let firstSup : Option (List MathNode) := if isSub then none else some (flat sc)
          let mk : Option (List MathNode) → Option (List MathNode) → MathNode :=
            fun sb sp =>
              match current with
              | .sum _ _ isInt => MathNode.sum sb sp isInt
              | _ => MathNode.script [current] sb sp
          match rest2 with
          | .text m2 _ :: sc2 :: rest3 =>
            if (m2 == "_" || m2 == "^") && ((m2 == "_") != isSub) then
              let sb := if m2 == "_" then some (flat sc2) else firstSub
              let sp := if m2 == "_" then firstSup else some (flat sc2)
              mk sb sp :: buildF f rest3
            else
              mk firstSub firstSup :: buildF f rest2
          | _ => mk firstSub firstSup :: buildF f rest2
        else current :: buildF f rest
      | _ => current :: buildF f rest

/-- `buildMathTree` applied with an adequate fuel budget (`sizeOf` strictly
dominates the number of node visits). -/
def buildMathTree (nodes : List MathNode) : List MathNode :=
  buildF (sizeOf nodes) nodes

/-- The target math primitives constructed by `renderToDocxMath`
(`MathRun`, `MathFraction`, `MathRadical`, `MathLimitLower`, `MathIntegral`,
`MathSum`, `MathSubSuperScript`, `MathSubScript`, `MathSuperScript` of the
`docx` library). -/
inductive DocxMathPrim where
  | mathRun (val : String)
  | mathFraction (numerator denominator : List DocxMathPrim)
  | mathRadical (children : List DocxMathPrim) (degree : Option (List DocxMathPrim))
  | mathLimitLower (children limitChildren : List DocxMathPrim)
  | mathIntegral (subScript superScript : Option (List DocxMathPrim))
      (children : List DocxMathPrim)
  | mathSum (subScript superScript : Option (List DocxMathPrim))
      (children : List DocxMathPrim)
  | mathSubSuperScript (children subScript superScript : List DocxMathPrim)
  | mathSubScript (children subScript : List DocxMathPrim)
  | mathSuperScript (children superScript : List DocxMathPrim)
deriving Repr

compile_inductive% DocxMathPrim

/-- `ensureChildren` (lines 300-305): an empty operand list is replaced by a
single blank run. -/
def ensureChildren (children : List DocxMathPrim) : List DocxMathPrim :=
  if children.isEmpty then [DocxMathPrim.mathRun " "] else children

/-- `renderToDocxMath` (lines 307-374) as a fuel-indexed structural
recursion (one fuel unit per visited node). -/
def renderF : Nat → List MathNode → List DocxMathPrim
  | 0, _ => []
  | _+1, [] => []
  | f+1, node :: rest =>
    (match node with
     | .text v _ => [DocxMathPrim.mathRun v]
     | .cmd v => [DocxMathPrim.mathRun ((LATEX_MAP v).getD v)]
     | .fraction num den =>
       [DocxMathPrim.mathFraction (ensureChildren (renderF f num))
          (ensureChildren (renderF f den))]
     | .radical deg ch =>
       [DocxMathPrim.mathRadical (ensureChildren (renderF f ch))
          (deg.map fun d => ensureChildren (renderF f d))]
     | .accent _ ch => renderF f ch
     | .limit base sub =>
       [DocxMathPrim.mathLimitLower [DocxMathPrim.mathRun base]
          (ensureChildren (renderF f sub))]
     | .sum sub sup isInt =>
       let sb := sub.map fun l => ensureChildren (renderF f l)
       let sp := sup.map fun l => ensureChildren (renderF f l)
       if isInt then [DocxMathPrim.mathIntegral sb sp [DocxMathPrim.mathRun ""]]
       else [DocxMathPrim.mathSum sb sp [DocxMathPrim.mathRun ""]]
     | .script base sub sup =>
       let b := ensureChildren (renderF f base)
       match sub.map (fun l => ensureChildren (renderF f l)),
             sup.map (fun l => ensureChildren (renderF f l)) with
       | some sb, some sp => [DocxMathPrim.mathSubSuperScript b sb sp]
       | some sb, none => [DocxMathPrim.mathSubScript b sb]
       | none, some sp => [DocxMathPrim.mathSuperScript b sp]
       | none, none => b
     | .group ch => renderF f ch)
    ++ renderF f rest

/-- `renderToDocxMath` applied with an adequate fuel budget. -/
def renderToDocxMath (nodes : List MathNode) : List DocxMathPrim :=
  renderF (sizeOf nodes) nodes

/-- `convertLatexToDocxMath` (lines 377-388).  The embedded pipeline is
total, so the `catch` branch of the source (which also returns
`[new MathRun(latex)]`) has no counterpart; the empty-result substitution is
translated as written. -/
def convertLatexToDocxMath (latex : String) : List DocxMathPrim :=
  let rawNodes := parseLatexToStructure latex
  let structuredNodes := buildMathTree rawNodes
  let docxNodes := renderToDocxMath structuredNodes
  if docxNodes.isEmpty then [DocxMathPrim.mathRun latex] else docxNodes

/-! ## Markdown structural parser

Embedding of `parseMarkdownToSections` / `parseTable` from the canonical
line-oriented parser snapshot (the variant with blockquote and
horizontal-rule support, `src/src/utils/exportService.ts` lines 562-834;
the `src/unnamed/part_000` snapshot is the same parser minus the blockquote
and HR branches).  Each emitted `ContentBlock` additionally carries a ghost
field `srcLine`: the 0-based index of the source line at which the block's
source text started (for buffered blocks, the line that opened the buffer).
The ghost field influences no parsing decision; it exists solely to state
the order-preservation property. -/

/-- The `ContentType` tags used by this parser variant. -/
inductive ContentType where
  | PARAGRAPH
  | CODE_BLOCK
  | TABLE
  | LIST_ITEM
  | BLOCKQUOTE
  | HR
deriving DecidableEq, Repr

/-- `ParsedTable` from `types.ts`. -/
structure ParsedTable where
  headers : List String
  rows : List (List String)
deriving DecidableEq, Repr

/-- `ContentBlock` from `types.ts`, plus the ghost `srcLine` annotation. -/
structure ContentBlock where
  type : ContentType
  content : String
  language : Option String := none
  tableData : Option ParsedTable := none
  srcLine : Nat := 0
deriving DecidableEq, Repr

/-- `ParsedSection` from `types.ts`. -/
structure ParsedSection where
  title : String
  level : Nat
  blocks : List ContentBlock
deriving DecidableEq, Repr

/-- `String.prototype.trim()` on the character list. -/
def trimChars (l : List Char) : List Char :=
  ((l.dropWhile isJsWs).reverse.dropWhile isJsWs).reverse

/-- `String.prototype.split(sep)` for a single-character separator,
matching the JavaScript behaviour (a trailing separator yields a trailing
empty piece). -/
def splitOnChar (sep : Char) : List Char → List (List Char)
  | [] => [[]]
  | c :: rest =>
    if c == sep then [] :: splitOnChar sep rest
    else
      match splitOnChar sep rest with
      | [] => [[c]]
      | l :: ls => (c :: l) :: ls

/-- `trimmedLine.replace(/\x60\x60\x60/g, '')` : delete every occurrence of
three consecutive backticks (left to right, non-overlapping). -/
def removeTicks : List Char → List Char
  | '\x60' :: '\x60' :: '\x60' :: rest => removeTicks rest
  | c :: rest => c :: removeTicks rest
  | [] => []

/-- `trimmedLine.replace(/^>\s?/, '')` : strip one leading marker and at
most one following whitespace character. -/
def stripQuote (t : List Char) : List Char :=
  match t with
  | '>' :: r =>
    (match r with
     | c :: r2 => if isJsWs c then r2 else r
     | [] => [])
  | _ => t

/-- `trimmedLine.match(/^[-*]\s/)` : bullet list marker. -/
def matchBullet (t : List Char) : Bool :=
  match t with
  | c :: d :: _ => (c == '-' || c == '*') && isJsWs d
  | _ => false

/-- `trimmedLine.match(/^\d+\.\s/)` : ordered list marker. -/
def matchOrdered (t : List Char) : Bool :=
  let ds := t.takeWhile (fun c => '0' ≤ c && c ≤ '9')
  match t.drop ds.length with
  | '.' :: c :: _ => !ds.isEmpty && isJsWs c
  | _ => false

/-- `trimmedLine.replace(/^([-*]|\d+\.)\s/, '')` : strip the list marker
and the single whitespace character after it. -/
def stripListMarker (t : List Char) : List Char :=
  if matchBullet t then t.drop 2
  else if matchOrdered t then
    t.drop ((t.takeWhile (fun c => '0' ≤ c && c ≤ '9')).length + 2)
  else t

/-- Lookahead that opens table mode:
`nextLine && nextLine.includes('|') && nextLine.includes('-')` on the
trimmed following line. -/
def tableStartOK (next : Option (List Char)) : Bool :=
  match next with
  | none => false
  | some raw =>
    let nt := trimChars raw
    !nt.isEmpty && nt.contains '|' && nt.contains '-'

/-- Lookahead that closes table mode:
`!nextLine || !nextLine.includes('|')` on the trimmed following line. -/
def tableCloseAfter (next : Option (List Char)) : Bool :=
  match next with
  | none => true
  | some raw =>
    let nt := trimChars raw
    nt.isEmpty || !nt.contains '|'

/-- A table row whose content with all pipes removed matches `/^[- :]+$/`
(the separator row filtered out by `parseTable`). -/
def isSeparatorRow (row : List Char) : Bool :=
  let clean := trimChars (row.filter (fun c => !(c == '|')))
  !clean.isEmpty && clean.all (fun c => c == '-' || c == ' ' || c == ':')

/-- The cell extraction of `parseTable`: split on `|`, dropping the one
leading and trailing empty cell of a row that is pipe-delimited on both
ends, then trim each cell. -/
def extractCells (row : List Char) : List String :=
  let trimmed := trimChars row
  let parts := splitOnChar '|' trimmed
  let core :=
    if (match trimmed with | '|' :: _ => true | _ => false)
        && (trimmed.getLast? == some '|') then
      (parts.drop 1).dropLast
    else parts
  core.map (fun p => String.mk (trimChars p))

/-- `parseTable` (lines 811-834 of the canonical snapshot, identical in
`src/unnamed/part_000` lines 196-219). -/
def parseTable (rows : List (List Char)) : Option ParsedTable :=
  if rows.length < 2 then none
  else
    let contentRows := rows.filter (fun row => !isSeparatorRow row)
    match contentRows with
    | [] => none
    | h :: tl => some ⟨extractCells h, tl.map extractCells⟩

/-- The mutable state of the `parseMarkdownToSections` line loop.  The
`*Start` fields are ghost source-line indices recording where the pending
buffer (and the current line's block) started. -/
structure PState where
  sections : List ParsedSection
  curTitle : String
  curLevel : Nat
  curBlocks : List ContentBlock
  inCodeBlock : Bool
  codeBlockContent : List (List Char)
  codeLanguage : List Char
  codeStart : Nat
  inMathBlock : Bool
  mathBlockContent : List (List Char)
  mathStart : Nat
  inTable : Bool
  tableRows : List (List Char)
  tableStart : Nat
  inBlockquote : Bool
  blockquoteContent : List (List Char)
  quoteStart : Nat
deriving DecidableEq, Repr

/-- The parser's initial state (default section title, all modes off). -/
def initState : PState :=
  { sections := [], curTitle := "简介", curLevel := 1, curBlocks := []
    inCodeBlock := false, codeBlockContent := [], codeLanguage := [], codeStart := 0
    inMathBlock := false, mathBlockContent := [], mathStart := 0
    inTable := false, tableRows := [], tableStart := 0
    inBlockquote := false, blockquoteContent := [], quoteStart := 0 }

/-- `flushCodeBlock`: emit the buffered code block (if non-empty) into the
current section. -/
def flushCodeBlock (s : PState) : PState :=
  if s.codeBlockContent.isEmpty then s
  else
    { s with
      curBlocks := s.curBlocks ++
        [{ type := .CODE_BLOCK
           content := String.intercalate "\n" (s.codeBlockContent.map String.mk)
           language := some (String.mk (trimChars s.codeLanguage))
           srcLine := s.codeStart }]
      codeBlockContent := [], codeLanguage := [] }

/-- `flushMathBlock`: emit the buffered math block (if non-empty) as a
code block tagged `language: math`. -/
def flushMathBlock (s : PState) : PState :=
  if s.mathBlockContent.isEmpty then s
  else
    { s with
      curBlocks := s.curBlocks ++
        [{ type := .CODE_BLOCK
           content := String.intercalate "\n" (s.mathBlockContent.map String.mk)
           language := some "math"
           srcLine := s.mathStart }]
      mathBlockContent := [] }

/-- `flushTable`: parse and emit the buffered table rows (if any and
well-formed). -/
def flushTable (s : PState) : PState :=
  if s.tableRows.isEmpty then s
  else
    match parseTable s.tableRows with
    | some parsed =>
      { s with
        curBlocks := s.curBlocks ++
          [{ type := .TABLE, content := "", tableData := some parsed
             srcLine := s.tableStart }]
        tableRows := [] }
    | none => { s with tableRows := [] }

/-- `flushBlockquote`: emit the buffered blockquote lines (if any). -/
def flushBlockquote (s : PState) : PState :=
  if s.blockquoteContent.isEmpty then s
  else
    { s with
      curBlocks := s.curBlocks ++
        [{ type := .BLOCKQUOTE
           content := String.intercalate "\n" (s.blockquoteContent.map String.mk)
           srcLine := s.quoteStart }]
      blockquoteContent := [] }

/-- `trimmedLine.startsWith(c)` for a single character. -/
def headIs (c : Char) (t : List Char) : Bool :=
  match t with
  | d :: _ => d == c
  | _ => false

/-- The `$$` fence branch of the line loop (canonical snapshot
lines 642-660). -/
def stepMathFence (s : PState) (i : Nat) (line : List Char) : PState :=
  if s.inMathBlock then flushMathBlock { s with inMathBlock := false }
  else if s.inCodeBlock then { s with codeBlockContent := s.codeBlockContent ++ [line] }
  else
    let s1 := if s.inTable then flushTable { s with inTable := false } else s
    let s2 := if s1.inBlockquote then flushBlockquote { s1 with inBlockquote := false } else s1
    { s2 with inMathBlock := true, mathStart := i }

/-- The triple-backtick fence branch (lines 668-682). -/
def stepCodeFence (s : PState) (i : Nat) (t : List Char) : PState :=
  if s.inCodeBlock then flushCodeBlock { s with inCodeBlock := false }
  else
    let s1 := if s.inTable then flushTable { s with inTable := false } else s
    let s2 := if s1.inBlockquote then flushBlockquote { s1 with inBlockquote := false } else s1
    { s2 with inCodeBlock := true, codeLanguage := removeTicks t, codeStart := i }

/-- The heading branch (lines 690-709). -/
def stepHeader (s : PState) (i : Nat) (t : List Char) : PState :=
  let s1 := if s.inTable then flushTable { s with inTable := false } else s
  let s2 := if s1.inBlockquote then flushBlockquote { s1 with inBlockquote := false } else s1
  let s3 :=
    if s2.curBlocks.isEmpty then s2
    else { s2 with sections := s2.sections ++ [⟨s2.curTitle, s2.curLevel, s2.curBlocks⟩] }
  let lvl := (t.takeWhile (fun c => c == '#')).length
  { s3 with
    curTitle := String.mk ((t.dropWhile (fun c => c == '#')).dropWhile isJsWs)
    curLevel := if lvl == 0 then 1 else lvl
    curBlocks := [] }

/-- The table branch for a `|`-containing line (lines 712-739).  When the
lookahead fails and a blockquote is open, the source pushes the paragraph
without flushing the open blockquote. -/
def stepPipe (s : PState) (i : Nat) (t : List Char) (next : Option (List Char)) : PState :=
  if !s.inTable then
    if tableStartOK next then
      let s1 := { s with inTable := true, tableRows := [], tableStart := i }
      let s2 := if s1.inBlockquote then flushBlockquote { s1 with inBlockquote := false } else s1
      let s3 := { s2 with tableRows := s2.tableRows ++ [t] }
      if tableCloseAfter next then flushTable { s3 with inTable := false } else s3
    else
      if t.isEmpty then s
      else { s with curBlocks := s.curBlocks ++ [{ type := .PARAGRAPH, content := String.mk t, srcLine := i }] }
  else
    let s3 := { s with tableRows := s.tableRows ++ [t] }
    if tableCloseAfter next then flushTable { s3 with inTable := false } else s3

/-- The blockquote / list / horizontal rule / paragraph branches
(lines 742-794).  The redundant blockquote flushes inside the list, HR and
paragraph branches of the source are omitted: they are unreachable because
the blockquote-exit check directly above them has already cleared the
flag. -/
def stepOther (s : PState) (i : Nat) (t : List Char) : PState :=
  if headIs '>' t then
    let s1 := if s.inTable then flushTable { s with inTable := false } else s
    let s2 :=
      if !s1.inBlockquote then
        { s1 with inBlockquote := true, blockquoteContent := [], quoteStart := i }
      else s1
    { s2 with blockquoteContent := s2.blockquoteContent ++ [stripQuote t] }
  else
    let s1 := if s.inBlockquote then flushBlockquote { s with inBlockquote := false } else s
    if matchBullet t || matchOrdered t then
      let s2 := if s1.inTable then flushTable { s1 with inTable := false } else s1
      { s2 with curBlocks := s2.curBlocks ++ [{ type := .LIST_ITEM, content := String.mk (stripListMarker t), srcLine := i }] }
    else if t == ['-', '-', '-'] || t == ['*', '*', '*'] || t == ['_', '_', '_'] then
      let s2 := if s1.inTable then flushTable { s1 with inTable := false } else s1
      { s2 with curBlocks := s2.curBlocks ++ [{ type := .HR, content := "", srcLine := i }] }
    else if !t.isEmpty then
      let s2 := if s1.inTable then flushTable { s1 with inTable := false } else s1
      { s2 with curBlocks := s2.curBlocks ++ [{ type := .PARAGRAPH, content := String.mk t, srcLine := i }] }
    else s1

/-- One iteration of the `parseMarkdownToSections` line loop (lines 637-795
of the canonical snapshot).  `i` is the ghost index of `line`; `next` is
the raw following line (`lines[i+1]`), if any. -/
def step (s : PState) (i : Nat) (line : List Char) (next : Option (List Char)) : PState :=
  let t := trimChars line
  if t == ['$', '$'] then stepMathFence s i line
  else if s.inMathBlock then { s with mathBlockContent := s.mathBlockContent ++ [line] }
  else if t.take 3 == ['\x60', '\x60', '\x60'] then stepCodeFence s i t
  else if s.inCodeBlock then { s with codeBlockContent := s.codeBlockContent ++ [line] }
  else if headIs '#' t then stepHeader s i t
  else if t.contains '|' then stepPipe s i t next
  else stepOther s i t

/-- The line loop: fold `step` over the lines, supplying lookahead. -/
def runLines : PState → Nat → List (List Char) → PState
  | s, _, [] => s
  | s, i, l :: rest => runLines (step s i l rest.head?) (i + 1) rest

/-- End-of-input processing: flush any still-open mode, then append the
final section if non-empty. -/
def finalizeState (s : PState) : List ParsedSection :=
  let s1 := if s.inTable then flushTable s else s
  let s2 := if s1.inCodeBlock then flushCodeBlock s1 else s1
  let s3 := if s2.inMathBlock then flushMathBlock s2 else s2
  let s4 := if s3.inBlockquote then flushBlockquote s3 else s3
  if s4.curBlocks.isEmpty then s4.sections
  else s4.sections ++ [⟨s4.curTitle, s4.curLevel, s4.curBlocks⟩]

/-- `parseMarkdownToSections` (lines 562-808 of the canonical snapshot). -/
def parseMarkdownToSections (markdown : String) : List ParsedSection :=
  finalizeState (runLines initState 0 (splitOnChar '
' markdown.data))

/-! ## Document assembly driver: math dispatch

Embedding of the math branches of the assembly driver from
`src/unnamed/part_001` (the snapshot whose `mathMode` values are
`native`/`image`): the inline-math part handler of `parseParagraphContent`
(lines 516-538) and the block-math handler of `exportToDocx`
(lines 650-699).  The external math rasterizer (`generateMathImage`, a
network/DOM service returning a PNG buffer or `null`) is modelled as an
oracle `raster : String → Option ImageBuffer`; image sizing
(`getImageDimensions` and the scale arithmetic) is a DOM collaborator and
is elided from the embedded image run. -/

/-- An opaque rasterized image payload. -/
structure ImageBuffer where
  bytes : List Nat
deriving DecidableEq, Repr

/-- `mathMode: 'native' | 'image'` of the `part_001` snapshot. -/
inductive MathMode where
  | native
  | image
deriving DecidableEq, Repr

/-- `ExportOptions` of the `part_001` snapshot. -/
structure ExportOptions where
  chartTheme : String
  mathMode : MathMode
deriving DecidableEq, Repr

/-- A child of an output paragraph (text run details other than the payload
are not needed by the math claims). -/
inductive ParagraphChild where
  | textRun (text : String)
  | imageRun (buf : ImageBuffer)
  | docxMath (children : List DocxMathPrim)
deriving Repr

/-- An output document element (only the shape needed by the math
dispatch). -/
inductive DocxElem where
  | paragraph (children : List ParagraphChild) (centered : Bool)
deriving Repr

/-- Lines 516-538 of `src/unnamed/part_001`: emit one inline-math part of
`parseParagraphContent` (the `$`-delimiters already stripped into
`cleanMath`).  In image mode a successful rasterization becomes an image
run; a failed one falls back to the native lowering of the same source. -/
def inlineMathChild (raster : String → Option ImageBuffer)
    (options : ExportOptions) (cleanMath : String) : ParagraphChild :=
  match options.mathMode with
  | .image =>
    match raster cleanMath with
    | some buf => .imageRun buf
    | none => .docxMath (convertLatexToDocxMath cleanMath)
  | .native => .docxMath (convertLatexToDocxMath cleanMath)

/-- Lines 650-699 of `src/unnamed/part_001`: emit one block-math content
block (`latex` is the content with the `$$` fence stripped and trimmed). -/
def blockMathParagraph (raster : String → Option ImageBuffer)
    (options : ExportOptions) (latex : String) : DocxElem :=
  match options.mathMode with
  | .image =>
    match raster latex with
    | some buf => .paragraph [.imageRun buf] true
    | none => .paragraph [.docxMath (convertLatexToDocxMath latex)] true
  | .native => .paragraph [.docxMath (convertLatexToDocxMath latex)] true

/-! ## Claim C1: top-level math conversion fallback -/

/-- A run primitive whose text is empty or whitespace-only. -/
def isBlankRun : DocxMathPrim → Bool
  | .mathRun v => (trimChars v.data).isEmpty
  | _ => false

/-- C1 (counterexample).  The claim asserts that whenever the rendered
primitive list is empty the conversion substitutes a single *blank* run.
On the source `\left` the rendered list is empty, yet the substituted run
holds the raw text `\left`, which is not blank. -/
theorem claim_c1_counterexample :
    renderToDocxMath (buildMathTree (parseLatexToStructure "\\left")) = [] ∧
    convertLatexToDocxMath "\\left" = [DocxMathPrim.mathRun "\\left"] ∧
    isBlankRun (DocxMathPrim.mathRun "\\left") = false := by
  refine ⟨rfl, rfl, ?_⟩
  rfl

/-- C1 (amended).  `convertLatexToDocxMath` always returns a non-empty
primitive list, and whenever the rendered primitive list is empty it
substitutes the single run holding the raw LaTeX source (which is a blank
run when the source is empty or whitespace-only). -/
theorem claim_c1 (latex : String) :
    convertLatexToDocxMath latex ≠ [] ∧
    (renderToDocxMath (buildMathTree (parseLatexToStructure latex)) = [] →
      convertLatexToDocxMath latex = [DocxMathPrim.mathRun latex]) := by
  have hdef : convertLatexToDocxMath latex =
      if (renderToDocxMath (buildMathTree (parseLatexToStructure latex))).isEmpty
      then [DocxMathPrim.mathRun latex]
      else renderToDocxMath (buildMathTree (parseLatexToStructure latex)) := rfl
  rw [hdef]
  constructor
  · split
    · simp
    · next h => simpa [List.isEmpty_iff] using h
  · intro h
    simp [h]

/-- C1 witness: the amended theorem applied at the empty source, whose
rendered primitive list is empty. -/
theorem claim_c1_witness :
    convertLatexToDocxMath "" ≠ [] ∧
    convertLatexToDocxMath "" = [DocxMathPrim.mathRun ""] :=
  ⟨(claim_c1 "").1, (claim_c1 "").2 rfl⟩

/-! ## Claim C3: script resolution tie-break -/

/-- `flattenNode` (lines 294-297 of `src/services/exportService.ts`), with
the fuel made explicit: a brace-group operand is recursively rebuilt, any
other operand contributes itself as a one-element list. -/
def flattenNode (f : Nat) : MathNode → List MathNode
  | .group ch => buildF f ch
  | n => [n]

/-- The scripted node pushed by `buildMathTree` (lines 270-285): a `sum`
base keeps its n-ary kind and receives the scripts directly; any other base
is wrapped in a `script` node. -/
def pushScript (base : MathNode) (sb sp : Option (List MathNode)) : MathNode :=
  match base with
  | .sum _ _ isInt => MathNode.sum sb sp isInt
  | _ => MathNode.script [base] sb sp

/-- C3.  `\sum_\x7bi=1\x7d^\x7bn\x7d` resolves to exactly one `sum` node
carrying both the lowered subscript `i=1` and the lowered superscript `n`;
and in general, for any non-`limit` base and either marker order, the first
script marker (`_` or `^`) fixes the first script kind, a second
immediately following marker is consumed as the complementary script
exactly when it is a marker of the *opposite* kind, and otherwise (same
kind, or not a marker pair) the second candidate is left in the stream;
a lone marker-operand pair attaches only the first script. -/
theorem claim_c3 :
    buildMathTree (parseLatexToStructure "\\sum_\x7bi=1\x7d^\x7bn\x7d") =
      [MathNode.sum
        (some [MathNode.text "i" (some .italic), MathNode.text "=" (some .plain),
               MathNode.text "1" (some .plain)])
        (some [MathNode.text "n" (some .italic)]) false] ∧
    (∀ (f : Nat) (base : MathNode) (m1 m2 : String) (st1 st2 : Option MathStyle)
        (sc1 sc2 : MathNode) (rest : List MathNode),
      (∀ b lim, base ≠ MathNode.limit b lim) →
      (m1 == "_" || m1 == "^") = true →
      (m2 == "_" || m2 == "^") = true →
      ((m2 == "_") != (m1 == "_")) = true →
      buildF (f + 1)
          (base :: MathNode.text m1 st1 :: sc1 ::
            MathNode.text m2 st2 :: sc2 :: rest) =
        pushScript base
            (if m1 == "_" then some (flattenNode f sc1)
             else some (flattenNode f sc2))
            (if m1 == "_" then some (flattenNode f sc2)
             else some (flattenNode f sc1)) ::
          buildF f rest) ∧
    (∀ (f : Nat) (base : MathNode) (m1 m2 : String) (st1 st2 : Option MathStyle)
        (sc1 sc2 : MathNode) (rest : List MathNode),
      (∀ b lim, base ≠ MathNode.limit b lim) →
      (m1 == "_" || m1 == "^") = true →
      ((m2 == "_" || m2 == "^") && ((m2 == "_") != (m1 == "_"))) = false →
      buildF (f + 1)
          (base :: MathNode.text m1 st1 :: sc1 ::
            MathNode.text m2 st2 :: sc2 :: rest) =
        pushScript base
            (if m1 == "_" then some (flattenNode f sc1) else none)
            (if m1 == "_" then none else some (flattenNode f sc1)) ::
          buildF f (MathNode.text m2 st2 :: sc2 :: rest)) ∧
    (∀ (f : Nat) (base : MathNode) (m1 : String) (st1 : Option MathStyle)
        (sc1 : MathNode),
      (∀ b lim, base ≠ MathNode.limit b lim) →
      (m1 == "_" || m1 == "^") = true →
      buildF (f + 1) [base, MathNode.text m1 st1, sc1] =
        [pushScript base
            (if m1 == "_" then some (flattenNode f sc1) else none)
            (if m1 == "_" then none else some (flattenNode f sc1))]) := by
  refine ⟨rfl, ?_, ?_, ?_⟩
  · intro f base m1 m2 st1 st2 sc1 sc2 rest hbase hm1 hm2 hop
    rcases (show m1 = "_" ∨ m1 = "^" from by simpa using hm1) with rfl | rfl <;>
      rcases (show m2 = "_" ∨ m2 = "^" from by simpa using hm2) with rfl | rfl
    · exact absurd hop (by decide)
    · cases base
      case limit b l => exact absurd rfl (hbase b l)
      all_goals cases sc1 <;> cases sc2 <;> rfl
    · cases base
      case limit b l => exact absurd rfl (hbase b l)
      all_goals cases sc1 <;> cases sc2 <;> rfl
    · exact absurd hop (by decide)
  · intro f base m1 m2 st1 st2 sc1 sc2 rest hbase hm1 hcond
    rcases (show m1 = "_" ∨ m1 = "^" from by simpa using hm1) with rfl | rfl
    · cases base
      case limit b l => exact absurd rfl (hbase b l)
      all_goals
        simp only [buildF, hcond]
        cases sc1 <;> rfl
    · cases base
      case limit b l => exact absurd rfl (hbase b l)
      all_goals
        simp only [buildF, hcond]
        cases sc1 <;> rfl
  · intro f base m1 st1 sc1 hbase hm1
    rcases (show m1 = "_" ∨ m1 = "^" from by simpa using hm1) with rfl | rfl <;>
      (cases base
       case limit b l => exact absurd rfl (hbase b l)
       all_goals cases f <;> cases sc1 <;> rfl)

/-- C3 witness: the general tie-break rules applied at concrete inputs,
including a superscript-first pair and a non-`sum` base. -/
theorem claim_c3_witness :
    buildF 1
        (MathNode.text "x" none :: MathNode.text "^" none ::
          MathNode.text "a" none :: MathNode.text "_" none ::
          MathNode.text "b" none :: []) =
      [MathNode.script [MathNode.text "x" none]
        (some [MathNode.text "b" none]) (some [MathNode.text "a" none])] ∧
    buildF 1
        (MathNode.sum none none false :: MathNode.text "_" none ::
          MathNode.text "a" none :: MathNode.text "_" none ::
          MathNode.text "b" none :: []) =
      MathNode.sum (some [MathNode.text "a" none]) none false ::
        buildF 0 (MathNode.text "_" none :: MathNode.text "b" none :: []) ∧
    buildF 1 [MathNode.fraction [] [], MathNode.text "^" none,
        MathNode.text "c" none] =
      [MathNode.script [MathNode.fraction [] []] none
        (some [MathNode.text "c" none])] :=
  ⟨claim_c3.2.1 0 (MathNode.text "x" none) "^" "_" none none
      (MathNode.text "a" none) (MathNode.text "b" none) []
      (by intro b l h; simp at h) rfl rfl rfl,
   claim_c3.2.2.1 0 (MathNode.sum none none false) "_" "_" none none
      (MathNode.text "a" none) (MathNode.text "b" none) []
      (by intro b l h; simp at h) rfl rfl,
   claim_c3.2.2.2 0 (MathNode.fraction [] []) "^" none
      (MathNode.text "c" none) (by intro b l h; simp at h) rfl⟩

/-! ## Claim C4: empty-operand guard in the renderer -/

/-- Every structural primitive in the lowered output has non-empty operand
lists, recursively. -/
inductive EmptyFree : DocxMathPrim → Prop where
  | mathRun (v : String) : EmptyFree (.mathRun v)
  | mathFraction (num den : List DocxMathPrim) (hn : num ≠ []) (hd : den ≠ [])
      (rn : ∀ p ∈ num, EmptyFree p) (rd : ∀ p ∈ den, EmptyFree p) :
      EmptyFree (.mathFraction num den)
  | mathRadical (ch : List DocxMathPrim) (deg : Option (List DocxMathPrim))
      (hc : ch ≠ []) (hdeg : ∀ d ∈ deg, d ≠ [])
      (rc : ∀ p ∈ ch, EmptyFree p) (rdeg : ∀ d ∈ deg, ∀ p ∈ d, EmptyFree p) :
      EmptyFree (.mathRadical ch deg)
  | mathLimitLower (ch lim : List DocxMathPrim) (hc : ch ≠ []) (hl : lim ≠ [])
      (rc : ∀ p ∈ ch, EmptyFree p) (rl : ∀ p ∈ lim, EmptyFree p) :
      EmptyFree (.mathLimitLower ch lim)
  | mathIntegral (sb sp : Option (List DocxMathPrim)) (ch : List DocxMathPrim)
      (hsb : ∀ l ∈ sb, l ≠ []) (hsp : ∀ l ∈ sp, l ≠ []) (hc : ch ≠ [])
      (rsb : ∀ l ∈ sb, ∀ p ∈ l, EmptyFree p) (rsp : ∀ l ∈ sp, ∀ p ∈ l, EmptyFree p)
      (rc : ∀ p ∈ ch, EmptyFree p) :
      EmptyFree (.mathIntegral sb sp ch)
  | mathSum (sb sp : Option (List DocxMathPrim)) (ch : List DocxMathPrim)
      (hsb : ∀ l ∈ sb, l ≠ []) (hsp : ∀ l ∈ sp, l ≠ []) (hc : ch ≠ [])
      (rsb : ∀ l ∈ sb, ∀ p ∈ l, EmptyFree p) (rsp : ∀ l ∈ sp, ∀ p ∈ l, EmptyFree p)
      (rc : ∀ p ∈ ch, EmptyFree p) :
      EmptyFree (.mathSum sb sp ch)
  | mathSubSuperScript (b sb sp : List DocxMathPrim)
      (hb : b ≠ []) (hsb : sb ≠ []) (hsp : sp ≠ [])
      (rb : ∀ p ∈ b, EmptyFree p) (rsb : ∀ p ∈ sb, EmptyFree p)
      (rsp : ∀ p ∈ sp, EmptyFree p) :
      EmptyFree (.mathSubSuperScript b sb sp)
  | mathSubScript (b sb : List DocxMathPrim) (hb : b ≠ []) (hsb : sb ≠ [])
      (rb : ∀ p ∈ b, EmptyFree p) (rsb : ∀ p ∈ sb, EmptyFree p) :
      EmptyFree (.mathSubScript b sb)
  | mathSuperScript (b sp : List DocxMathPrim) (hb : b ≠ []) (hsp : sp ≠ [])
      (rb : ∀ p ∈ b, EmptyFree p) (rsp : ∀ p ∈ sp, EmptyFree p) :
      EmptyFree (.mathSuperScript b sp)

theorem ensureChildren_ne_nil (l : List DocxMathPrim) : ensureChildren l ≠ [] := by
  unfold ensureChildren
  split <;> simp_all [List.isEmpty_iff]

theorem ensureChildren_emptyFree {l : List DocxMathPrim}
    (h : ∀ p ∈ l, EmptyFree p) : ∀ p ∈ ensureChildren l, EmptyFree p := by
  unfold ensureChildren
  split
  · intro p hp
    simp only [List.mem_singleton] at hp
    subst hp
    exact EmptyFree.mathRun " "
  · exact h

/-- Every primitive produced by the renderer, at any fuel, is recursively
free of empty operand lists. -/
theorem renderF_emptyFree : ∀ (f : Nat) (nodes : List MathNode),
    ∀ p ∈ renderF f nodes, EmptyFree p := by
  intro f
  induction f with
  | zero => intro nodes p hp; simp [renderF] at hp
  | succ f ih =>
    intro nodes p hp
    match nodes with
    | [] => simp [renderF] at hp
    | node :: rest =>
      have hrun : ∀ v, ∀ q ∈ [DocxMathPrim.mathRun v], EmptyFree q := by
        intro v q hq
        simp only [List.mem_singleton] at hq; subst hq; exact EmptyFree.mathRun _
      cases node with
      | text v sty =>
        rcases List.mem_append.mp hp with hp | hp
        · exact hrun _ p hp
        · exact ih rest p hp
      | cmd v =>
        rcases List.mem_append.mp hp with hp | hp
        · exact hrun _ p hp
        · exact ih rest p hp
      | group ch =>
        rcases List.mem_append.mp hp with hp | hp
        · exact ih ch p hp
        · exact ih rest p hp
      | accent a ch =>
        rcases List.mem_append.mp hp with hp | hp
        · exact ih ch p hp
        · exact ih rest p hp
      | fraction num den =>
        rcases List.mem_append.mp hp with hp | hp
        · simp only [List.mem_singleton] at hp; subst hp
          exact EmptyFree.mathFraction _ _ (ensureChildren_ne_nil _)
            (ensureChildren_ne_nil _)
            (ensureChildren_emptyFree (ih num)) (ensureChildren_emptyFree (ih den))
        · exact ih rest p hp
      | radical deg ch =>
        rcases List.mem_append.mp hp with hp | hp
        · simp only [List.mem_singleton] at hp; subst hp
          refine EmptyFree.mathRadical _ _ (ensureChildren_ne_nil _) ?_
            (ensureChildren_emptyFree (ih ch)) ?_
          · intro d hd
            cases deg with
            | none => simp at hd
            | some dl =>
              simp only [Option.map_some', Option.mem_def, Option.some_inj] at hd
              subst hd; exact ensureChildren_ne_nil _
          · intro d hd
            cases deg with
            | none => simp at hd
            | some dl =>
              simp only [Option.map_some', Option.mem_def, Option.some_inj] at hd
              subst hd; exact ensureChildren_emptyFree (ih dl)
        · exact ih rest p hp
      | limit base sub =>
        rcases List.mem_append.mp hp with hp | hp
        · simp only [List.mem_singleton] at hp; subst hp
          exact EmptyFree.mathLimitLower _ _ (by simp) (ensureChildren_ne_nil _)
            (hrun _) (ensureChildren_emptyFree (ih sub))
        · exact ih rest p hp
      | sum sub sup isInt =>
        have hsb : ∀ l ∈ sub.map (fun l => ensureChildren (renderF f l)), l ≠ [] := by
          intro l hl
          cases sub with
          | none => simp at hl
          | some sl =>
            simp only [Option.map_some', Option.mem_def, Option.some_inj] at hl
            subst hl; exact ensureChildren_ne_nil _
        have hsp : ∀ l ∈ sup.map (fun l => ensureChildren (renderF f l)), l ≠ [] := by
          intro l hl
          cases sup with
          | none => simp at hl
          | some sl =>
            simp only [Option.map_some', Option.mem_def, Option.some_inj] at hl
            subst hl; exact ensureChildren_ne_nil _
        have rsb : ∀ l ∈ sub.map (fun l => ensureChildren (renderF f l)),
            ∀ q ∈ l, EmptyFree q := by
          intro l hl
          cases sub with
          | none => simp at hl
          | some sl =>
            simp only [Option.map_some', Option.mem_def, Option.some_inj] at hl
            subst hl; exact ensureChildren_emptyFree (ih sl)
        have rsp : ∀ l ∈ sup.map (fun l => ensureChildren (renderF f l)),
            ∀ q ∈ l, EmptyFree q := by
          intro l hl
          cases sup with
          | none => simp at hl
          | some sl =>
            simp only [Option.map_some', Option.mem_def, Option.some_inj] at hl
            subst hl; exact ensureChildren_emptyFree (ih sl)
        cases isInt with
        | true =>
          rcases List.mem_append.mp hp with hp | hp
          · simp at hp; subst hp
            exact EmptyFree.mathIntegral _ _ _ hsb hsp (by simp) rsb rsp (hrun _)
          · exact ih rest p hp
        | false =>
          rcases List.mem_append.mp hp with hp | hp
          · simp at hp; subst hp
            exact EmptyFree.mathSum _ _ _ hsb hsp (by simp) rsb rsp (hrun _)
          · exact ih rest p hp
      | script base sub sup =>
        cases sub with
        | none =>
          cases sup with
          | none =>
            rcases List.mem_append.mp hp with hp | hp
            · exact ensureChildren_emptyFree (ih base) p hp
            · exact ih rest p hp
          | some sl =>
            rcases List.mem_append.mp hp with hp | hp
            · simp at hp; subst hp
              exact EmptyFree.mathSuperScript _ _ (ensureChildren_ne_nil _)
                (ensureChildren_ne_nil _) (ensureChildren_emptyFree (ih base))
                (ensureChildren_emptyFree (ih sl))
            · exact ih rest p hp
        | some bl =>
          cases sup with
          | none =>
            rcases List.mem_append.mp hp with hp | hp
            · simp at hp; subst hp
              exact EmptyFree.mathSubScript _ _ (ensureChildren_ne_nil _)
                (ensureChildren_ne_nil _) (ensureChildren_emptyFree (ih base))
                (ensureChildren_emptyFree (ih bl))
            · exact ih rest p hp
          | some sl =>
            rcases List.mem_append.mp hp with hp | hp
            · simp at hp; subst hp
              exact EmptyFree.mathSubSuperScript _ _ _ (ensureChildren_ne_nil _)
                (ensureChildren_ne_nil _) (ensureChildren_ne_nil _)
                (ensureChildren_emptyFree (ih base))
                (ensureChildren_emptyFree (ih bl))
                (ensureChildren_emptyFree (ih sl))
            · exact ih rest p hp

/-- C4.  The renderer never constructs a fraction, radical, limit, n-ary or
script primitive with an empty operand list (empty child lists are
substituted with a single placeholder blank run), and concretely
`\frac{}{x}` produces a fraction whose numerator is the single blank
placeholder run. -/
theorem claim_c4 :
    (∀ (f : Nat) (nodes : List MathNode), ∀ p ∈ renderF f nodes, EmptyFree p) ∧
    convertLatexToDocxMath "\\frac\x7b\x7d\x7bx\x7d" =
      [DocxMathPrim.mathFraction [DocxMathPrim.mathRun " "]
        [DocxMathPrim.mathRun "x"]] :=
  ⟨renderF_emptyFree, rfl⟩

/-- C4 witness: the invariant applied at a concrete fraction with an empty
numerator. -/
theorem claim_c4_witness :
    EmptyFree (DocxMathPrim.mathFraction [DocxMathPrim.mathRun " "]
      [DocxMathPrim.mathRun "x"]) :=
  claim_c4.1 2 [MathNode.fraction [] [MathNode.text "x" (some .italic)]]
    (DocxMathPrim.mathFraction [DocxMathPrim.mathRun " "] [DocxMathPrim.mathRun "x"])
    (List.Mem.head _)

/-! ## Claim C9: parser progress and termination -/

theorem length_dropWhile_le (p : Char → Bool) (l : List Char) :
    (l.dropWhile p).length ≤ l.length := by
  induction l with
  | nil => simp
  | cons c rest ih =>
    rw [List.dropWhile]
    split
    · exact le_trans ih (Nat.le_succ _)
    · exact le_refl _

theorem length_span_snd_le (p : Char → Bool) (l : List Char) :
    ((l.span p).2).length ≤ l.length := by
  rw [List.span_eq_take_drop]
  exact length_dropWhile_le p l

theorem readCmdName_length_le (rest : List Char) :
    ((readCmdName rest).2).length ≤ rest.length := by
  simp only [readCmdName]
  split
  · split
    · next heq => simp
    · next d r heq =>
      show r.length ≤ rest.length
      have h1 := congrArg List.length heq
      have h2 := length_span_snd_le isLatexLetter rest
      simp only [List.length_cons] at h1
      omega
  · exact length_span_snd_le isLatexLetter rest

theorem parseCmdTail_length_le (gloop : List Char → List MathNode × List Char)
    (hg : ∀ t, ((gloop t).2).length ≤ t.length)
    (cmd : String) (r2 : List Char) :
    ((parseCmdTail gloop cmd r2).2).length ≤ r2.length := by
  simp only [parseCmdTail]
  split
  · exact le_refl _
  split
  · exact le_refl _
  split
  · exact le_refl _
  split
  · exact le_refl _
  split
  · split
    · next r3 heq =>
      have h1 := congrArg List.length heq
      have h2 := length_dropWhile_le isJsWs r2
      simp only [List.length_cons] at h1
      have h3 := hg r3
      show ((gloop r3).2).length ≤ r2.length
      omega
    · exact length_dropWhile_le isJsWs r2
  split
  · exact le_refl _
  · exact le_refl _

theorem parseCmd_length_le (gloop oloop operand : List Char → List MathNode × List Char)
    (hg : ∀ t, ((gloop t).2).length ≤ t.length)
    (ho : ∀ t, ((oloop t).2).length ≤ t.length)
    (hop : ∀ t, ((operand t).2).length ≤ t.length)
    (cmd : String) (r2 : List Char) :
    ((parseCmd gloop oloop operand cmd r2).2).length ≤ r2.length := by
  simp only [parseCmd]
  split
  · exact le_refl _
  split
  · exact le_refl _
  split
  · exact le_trans (hop _) (hop _)
  split
  · split
    · next r3 heq =>
      have h1 := congrArg List.length heq
      have h2 := length_dropWhile_le isJsWs r2
      simp only [List.length_cons] at h1
      have h3 := le_trans (hop _) (ho r3)
      show ((operand (oloop r3).2).2).length ≤ r2.length
      omega
    · exact hop _
  split
  · exact hop _
  · exact parseCmdTail_length_le gloop hg cmd r2

/-- Each cursor routine never moves the cursor backwards. -/
theorem parseRun_length_le (f : Nat) :
    ∀ (m : PMode) (s : List Char), ((parseRun f m s).2).length ≤ s.length := by
  induction f with
  | zero => intro m s; simp [parseRun]
  | succ f ih =>
    intro m s
    cases m with
    | gloop =>
      cases s with
      | nil => simp [parseRun]
      | cons c rest =>
        simp only [parseRun]
        split
        · exact Nat.le_succ _
        · exact le_trans (ih .gloop _) (ih .pnext _)
    | oloop =>
      cases s with
      | nil => simp [parseRun]
      | cons c rest =>
        simp only [parseRun]
        split
        · exact Nat.le_succ _
        · exact le_trans (ih .oloop _) (ih .pnext _)
    | operand =>
      simp only [parseRun]
      have hdw : ((s.dropWhile isJsWs)).length ≤ s.length := length_dropWhile_le _ s
      split
      · next heq =>
        refine le_trans (ih .gloop _) ?_
        have h2 := congrArg List.length heq
        simp only [List.length_cons] at h2
        omega
      · exact le_trans (ih .pnext _) hdw
    | pnext =>
      cases s with
      | nil => simp [parseRun]
      | cons c rest =>
        simp only [parseRun]
        split
        · exact le_trans (ih .gloop rest) (Nat.le_succ _)
        split
        · refine le_trans (parseCmd_length_le _ _ _
            (fun t => ih .gloop t) (fun t => ih .oloop t) (fun t => ih .operand t)
            _ _) ?_
          exact le_trans (readCmdName_length_le rest) (Nat.le_succ _)
        split
        · exact Nat.le_succ _
        split
        · exact Nat.le_succ _
        split
        · exact Nat.le_succ _
        split
        · exact le_trans (length_span_snd_le isDigitDot rest) (Nat.le_succ _)
        · exact Nat.le_succ _

/-- Whenever the cursor is strictly inside the input, `parseNext` advances
it by at least one character. -/
theorem parseRun_pnext_progress (f : Nat) (s : List Char) (h : s ≠ []) :
    ((parseRun (f + 1) PMode.pnext s).2).length < s.length := by
  match s, h with
  | c :: rest, _ =>
    simp only [parseRun]
    split
    · exact Nat.lt_succ_of_le (parseRun_length_le f .gloop rest)
    split
    · refine Nat.lt_succ_of_le (le_trans (parseCmd_length_le _ _ _
        (fun t => parseRun_length_le f .gloop t)
        (fun t => parseRun_length_le f .oloop t)
        (fun t => parseRun_length_le f .operand t) _ _) ?_)
      exact readCmdName_length_le rest
    split
    · exact Nat.lt_succ_of_le (le_refl _)
    split
    · exact Nat.lt_succ_of_le (le_refl _)
    split
    · exact Nat.lt_succ_of_le (le_refl _)
    split
    · exact Nat.lt_succ_of_le (length_span_snd_le isDigitDot rest)
    · exact Nat.lt_succ_of_le (le_refl _)

/-- C9.  The embedded LaTeX parser is a total function; the cursor never
moves backwards in any of the mutually recursive routines, and each call to
the next-token routine on a cursor strictly inside the input advances it by
at least one character (uncategorized single characters are consumed as
italic text nodes), so the top-level scan and all nested group scans make
strict progress. -/
theorem claim_c9 :
    (∀ (f : Nat) (m : PMode) (s : List Char),
      ((parseRun f m s).2).length ≤ s.length) ∧
    (∀ (f : Nat) (s : List Char), s ≠ [] →
      ((parseRun (f + 1) PMode.pnext s).2).length < s.length) :=
  ⟨parseRun_length_le, parseRun_pnext_progress⟩

/-- C9 witness: progress at a concrete one-character input. -/
theorem claim_c9_witness :
    ((parseRun 4 PMode.pnext ['x']).2).length < 1 :=
  claim_c9.2 3 ['x'] (by decide)

/-! Field-preservation lemmas for the flush helpers. -/

@[simp] theorem flushCodeBlock_sections (s : PState) : (flushCodeBlock s).sections = s.sections := by
  simp only [flushCodeBlock]
  split <;> rfl

@[simp] theorem flushCodeBlock_curTitle (s : PState) : (flushCodeBlock s).curTitle = s.curTitle := by
  simp only [flushCodeBlock]
  split <;> rfl

@[simp] theorem flushCodeBlock_curLevel (s : PState) : (flushCodeBlock s).curLevel = s.curLevel := by
  simp only [flushCodeBlock]
  split <;> rfl

@[simp] theorem flushCodeBlock_inCodeBlock (s : PState) : (flushCodeBlock s).inCodeBlock = s.inCodeBlock := by
  simp only [flushCodeBlock]
  split <;> rfl

@[simp] theorem flushCodeBlock_inMathBlock (s : PState) : (flushCodeBlock s).inMathBlock = s.inMathBlock := by
  simp only [flushCodeBlock]
  split <;> rfl

@[simp] theorem flushCodeBlock_inTable (s : PState) : (flushCodeBlock s).inTable = s.inTable := by
  simp only [flushCodeBlock]
  split <;> rfl

@[simp] theorem flushCodeBlock_inBlockquote (s : PState) : (flushCodeBlock s).inBlockquote = s.inBlockquote := by
  simp only [flushCodeBlock]
  split <;> rfl

@[simp] theorem flushCodeBlock_codeStart (s : PState) : (flushCodeBlock s).codeStart = s.codeStart := by
  simp only [flushCodeBlock]
  split <;> rfl

@[simp] theorem flushCodeBlock_mathStart (s : PState) : (flushCodeBlock s).mathStart = s.mathStart := by
  simp only [flushCodeBlock]
  split <;> rfl

@[simp] theorem flushCodeBlock_tableStart (s : PState) : (flushCodeBlock s).tableStart = s.tableStart := by
  simp only [flushCodeBlock]
  split <;> rfl

@[simp] theorem flushCodeBlock_quoteStart (s : PState) : (flushCodeBlock s).quoteStart = s.quoteStart := by
  simp only [flushCodeBlock]
  split <;> rfl

@[simp] theorem flushMathBlock_sections (s : PState) : (flushMathBlock s).sections = s.sections := by
  simp only [flushMathBlock]
  split <;> rfl

@[simp] theorem flushMathBlock_curTitle (s : PState) : (flushMathBlock s).curTitle = s.curTitle := by
  simp only [flushMathBlock]
  split <;> rfl

@[simp] theorem flushMathBlock_curLevel (s : PState) : (flushMathBlock s).curLevel = s.curLevel := by
  simp only [flushMathBlock]
  split <;> rfl

@[simp] theorem flushMathBlock_inCodeBlock (s : PState) : (flushMathBlock s).inCodeBlock = s.inCodeBlock := by
  simp only [flushMathBlock]
  split <;> rfl

@[simp] theorem flushMathBlock_inMathBlock (s : PState) : (flushMathBlock s).inMathBlock = s.inMathBlock := by
  simp only [flushMathBlock]
  split <;> rfl

@[simp] theorem flushMathBlock_inTable (s : PState) : (flushMathBlock s).inTable = s.inTable := by
  simp only [flushMathBlock]
  split <;> rfl

@[simp] theorem flushMathBlock_inBlockquote (s : PState) : (flushMathBlock s).inBlockquote = s.inBlockquote := by
  simp only [flushMathBlock]
  split <;> rfl

@[simp] theorem flushMathBlock_codeStart (s : PState) : (flushMathBlock s).codeStart = s.codeStart := by
  simp only [flushMathBlock]
  split <;> rfl

@[simp] theorem flushMathBlock_mathStart (s : PState) : (flushMathBlock s).mathStart = s.mathStart := by
  simp only [flushMathBlock]
  split <;> rfl

@[simp] theorem flushMathBlock_tableStart (s : PState) : (flushMathBlock s).tableStart = s.tableStart := by
  simp only [flushMathBlock]
  split <;> rfl

@[simp] theorem flushMathBlock_quoteStart (s : PState) : (flushMathBlock s).quoteStart = s.quoteStart := by
  simp only [flushMathBlock]
  split <;> rfl

@[simp] theorem flushTable_sections (s : PState) : (flushTable s).sections = s.sections := by
  simp only [flushTable]
  split
  · rfl
  · split <;> rfl

@[simp] theorem flushTable_curTitle (s : PState) : (flushTable s).curTitle = s.curTitle := by
  simp only [flushTable]
  split
  · rfl
  · split <;> rfl

@[simp] theorem flushTable_curLevel (s : PState) : (flushTable s).curLevel = s.curLevel := by
  simp only [flushTable]
  split
  · rfl
  · split <;> rfl

@[simp] theorem flushTable_inCodeBlock (s : PState) : (flushTable s).inCodeBlock = s.inCodeBlock := by
  simp only [flushTable]
  split
  · rfl
  · split <;> rfl

@[simp] theorem flushTable_inMathBlock (s : PState) : (flushTable s).inMathBlock = s.inMathBlock := by
  simp only [flushTable]
  split
  · rfl
  · split <;> rfl

@[simp] theorem flushTable_inTable (s : PState) : (flushTable s).inTable = s.inTable := by
  simp only [flushTable]
  split
  · rfl
  · split <;> rfl

@[simp] theorem flushTable_inBlockquote (s : PState) : (flushTable s).inBlockquote = s.inBlockquote := by
  simp only [flushTable]
  split
  · rfl
  · split <;> rfl

@[simp] theorem flushTable_codeStart (s : PState) : (flushTable s).codeStart = s.codeStart := by
  simp only [flushTable]
  split
  · rfl
  · split <;> rfl

@[simp] theorem flushTable_mathStart (s : PState) : (flushTable s).mathStart = s.mathStart := by
  simp only [flushTable]
  split
  · rfl
  · split <;> rfl

@[simp] theorem flushTable_tableStart (s : PState) : (flushTable s).tableStart = s.tableStart := by
  simp only [flushTable]
  split
  · rfl
  · split <;> rfl

@[simp] theorem flushTable_quoteStart (s : PState) : (flushTable s).quoteStart = s.quoteStart := by
  simp only [flushTable]
  split
  · rfl
  · split <;> rfl

@[simp] theorem flushBlockquote_sections (s : PState) : (flushBlockquote s).sections = s.sections := by
  simp only [flushBlockquote]
  split <;> rfl

@[simp] theorem flushBlockquote_curTitle (s : PState) : (flushBlockquote s).curTitle = s.curTitle := by
  simp only [flushBlockquote]
  split <;> rfl

@[simp] theorem flushBlockquote_curLevel (s : PState) : (flushBlockquote s).curLevel = s.curLevel := by
  simp only [flushBlockquote]
  split <;> rfl

@[simp] theorem flushBlockquote_inCodeBlock (s : PState) : (flushBlockquote s).inCodeBlock = s.inCodeBlock := by
  simp only [flushBlockquote]
  split <;> rfl

@[simp] theorem flushBlockquote_inMathBlock (s : PState) : (flushBlockquote s).inMathBlock = s.inMathBlock := by
  simp only [flushBlockquote]
  split <;> rfl

@[simp] theorem flushBlockquote_inTable (s : PState) : (flushBlockquote s).inTable = s.inTable := by
  simp only [flushBlockquote]
  split <;> rfl

@[simp] theorem flushBlockquote_inBlockquote (s : PState) : (flushBlockquote s).inBlockquote = s.inBlockquote := by
  simp only [flushBlockquote]
  split <;> rfl

@[simp] theorem flushBlockquote_codeStart (s : PState) : (flushBlockquote s).codeStart = s.codeStart := by
  simp only [flushBlockquote]
  split <;> rfl

@[simp] theorem flushBlockquote_mathStart (s : PState) : (flushBlockquote s).mathStart = s.mathStart := by
  simp only [flushBlockquote]
  split <;> rfl

@[simp] theorem flushBlockquote_tableStart (s : PState) : (flushBlockquote s).tableStart = s.tableStart := by
  simp only [flushBlockquote]
  split <;> rfl

@[simp] theorem flushBlockquote_quoteStart (s : PState) : (flushBlockquote s).quoteStart = s.quoteStart := by
  simp only [flushBlockquote]
  split <;> rfl

/-! ## Claim C6: mutual exclusivity of the four mode flags -/

/-- The number of mode flags currently set. -/
def modeCount (s : PState) : Nat :=
  (if s.inCodeBlock then 1 else 0) + (if s.inMathBlock then 1 else 0) +
    (if s.inTable then 1 else 0) + (if s.inBlockquote then 1 else 0)

theorem stepMathFence_modeCount (s : PState) (i : Nat) (line : List Char)
    (h : modeCount s ≤ 1) : modeCount (stepMathFence s i line) ≤ 1 := by
  simp only [stepMathFence]
  repeat' split
  all_goals simp_all [modeCount]
  all_goals omega

theorem stepCodeFence_modeCount (s : PState) (i : Nat) (t : List Char)
    (hm : s.inMathBlock = false)
    (h : modeCount s ≤ 1) : modeCount (stepCodeFence s i t) ≤ 1 := by
  simp only [stepCodeFence]
  repeat' split
  all_goals simp_all [modeCount]
  all_goals omega

theorem stepHeader_modeCount (s : PState) (i : Nat) (t : List Char)
    (h : modeCount s ≤ 1) : modeCount (stepHeader s i t) ≤ 1 := by
  simp only [stepHeader]
  repeat' split
  all_goals simp_all [modeCount]
  all_goals omega

theorem stepPipe_modeCount (s : PState) (i : Nat) (t : List Char)
    (next : Option (List Char))
    (hcode : s.inCodeBlock = false) (hm : s.inMathBlock = false)
    (h : modeCount s ≤ 1) : modeCount (stepPipe s i t next) ≤ 1 := by
  simp only [stepPipe]
  repeat' split
  all_goals simp_all [modeCount]
  all_goals omega

theorem stepOther_modeCount (s : PState) (i : Nat) (t : List Char)
    (hcode : s.inCodeBlock = false) (hm : s.inMathBlock = false)
    (h : modeCount s ≤ 1) : modeCount (stepOther s i t) ≤ 1 := by
  simp only [stepOther]
  repeat' split
  all_goals simp_all [modeCount]
  all_goals omega

theorem step_modeCount (s : PState) (i : Nat) (line : List Char)
    (next : Option (List Char))
    (h : modeCount s ≤ 1) : modeCount (step s i line next) ≤ 1 := by
  simp only [step]
  split
  · exact stepMathFence_modeCount s i line h
  split
  · simpa [modeCount] using h
  next hm0 =>
    split
    · exact stepCodeFence_modeCount s i _ (by simpa using hm0) h
    split
    · simpa [modeCount] using h
    next hc0 =>
      split
      · exact stepHeader_modeCount s i _ h
      split
      · exact stepPipe_modeCount s i _ next (by simpa using hc0) (by simpa using hm0) h
      · exact stepOther_modeCount s i _ (by simpa using hc0) (by simpa using hm0) h

theorem runLines_modeCount (ls : List (List Char)) :
    ∀ (s : PState) (i : Nat), modeCount s ≤ 1 →
      modeCount (runLines s i ls) ≤ 1 := by
  induction ls with
  | nil => intro s i h; simpa [runLines] using h
  | cons l rest ih =>
    intro s i h
    simpa [runLines] using ih _ (i + 1) (step_modeCount s i l rest.head? h)

/-- C6.  At every loop-iteration boundary of the structural parser the four
mode flags in-code-block, in-math-block, in-table and in-blockquote are
mutually exclusive: at most one of them is set in the initial state, the
property is preserved by every line step (entering any mode first closes
and flushes any other open mode), and it therefore holds for the state
reached after any number of lines of any input. -/
theorem claim_c6 :
    modeCount initState ≤ 1 ∧
    (∀ (s : PState) (i : Nat) (line : List Char) (next : Option (List Char)),
      modeCount s ≤ 1 → modeCount (step s i line next) ≤ 1) ∧
    (∀ md : String, modeCount (runLines initState 0 (splitOnChar '\n' md.data)) ≤ 1) :=
  ⟨by decide, step_modeCount,
   fun md => runLines_modeCount _ initState 0 (by decide)⟩

/-- C6 witness: preservation applied at a concrete state with the table
flag set, stepped over a blockquote line. -/
theorem claim_c6_witness :
    modeCount (step { initState with inTable := true } 3 ['>', ' ', 'q'] none) ≤ 1 :=
  claim_c6.2.1 { initState with inTable := true } 3 ['>', ' ', 'q'] none (by decide)

/-! ## Claim C10: no empty sections are emitted -/

/-- All sections pushed so far have at least one block. -/
def sectionsNonempty (s : PState) : Prop :=
  ∀ sec ∈ s.sections, sec.blocks ≠ []

theorem stepHeader_sectionsNonempty (s : PState) (i : Nat) (t : List Char)
    (h : sectionsNonempty s) : sectionsNonempty (stepHeader s i t) := by
  intro sec hsec
  simp only [stepHeader] at hsec
  repeat' split at hsec
  all_goals
    try simp only [List.mem_append, List.mem_singleton, flushTable_sections,
      flushCodeBlock_sections, flushMathBlock_sections,
      flushBlockquote_sections] at hsec
  all_goals
    first
    | exact h sec hsec
    | (rcases hsec with hsec | hsec
       · exact h sec hsec
       · subst hsec
         simp_all [List.isEmpty_iff])

theorem step_sectionsNonempty (s : PState) (i : Nat) (line : List Char)
    (next : Option (List Char))
    (h : sectionsNonempty s) : sectionsNonempty (step s i line next) := by
  simp only [step]
  split
  · simp only [stepMathFence]
    repeat' split
    all_goals simp_all [sectionsNonempty]
  split
  · simpa [sectionsNonempty] using h
  split
  · simp only [stepCodeFence]
    repeat' split
    all_goals simp_all [sectionsNonempty]
  split
  · simpa [sectionsNonempty] using h
  split
  · exact stepHeader_sectionsNonempty s i _ h
  split
  · simp only [stepPipe]
    repeat' split
    all_goals simp_all [sectionsNonempty]
  · simp only [stepOther]
    repeat' split
    all_goals simp_all [sectionsNonempty]

theorem runLines_sectionsNonempty (ls : List (List Char)) :
    ∀ (s : PState) (i : Nat), sectionsNonempty s →
      sectionsNonempty (runLines s i ls) := by
  induction ls with
  | nil => intro s i h; simpa [runLines] using h
  | cons l rest ih =>
    intro s i h
    simpa [runLines] using ih _ (i + 1) (step_sectionsNonempty s i l rest.head? h)

theorem finalizeState_nonempty (s : PState) (h : sectionsNonempty s) :
    ∀ sec ∈ finalizeState s, sec.blocks ≠ [] := by
  simp only [finalizeState]
  intro sec hsec
  repeat' split at hsec
  all_goals
    try simp only [List.mem_append, List.mem_singleton, flushTable_sections,
      flushCodeBlock_sections, flushMathBlock_sections,
      flushBlockquote_sections] at hsec
  all_goals
    first
    | exact h sec hsec
    | (rcases hsec with hsec | hsec
       · exact h sec hsec
       · subst hsec
         simp_all [List.isEmpty_iff])

/-- C10.  `parseMarkdownToSections` never returns a section that has zero
blocks and the default title: every emitted section has at least one
block (the implicit first section is emitted only if it absorbed
content). -/
theorem claim_c10 (md : String) (sec : ParsedSection)
    (hsec : sec ∈ parseMarkdownToSections md) :
    ¬(sec.blocks = [] ∧ sec.title = "简介") := by
  intro ⟨hb, _⟩
  have hinit : sectionsNonempty initState := by
    intro x hx
    simp [initState] at hx
  have hfin := runLines_sectionsNonempty (splitOnChar '\n' md.data) initState 0 hinit
  exact finalizeState_nonempty _ hfin sec hsec hb

/-- C10 witness: the single-paragraph input, whose one emitted section has
one block. -/
theorem claim_c10_witness :
    ¬(([{ type := .PARAGRAPH, content := "x", srcLine := 0 }] : List ContentBlock) = []
      ∧ "简介" = "简介") :=
  claim_c10 "x"
    { title := "简介", level := 1,
      blocks := [{ type := .PARAGRAPH, content := "x", srcLine := 0 }] }
    (List.Mem.head _)

/-! ## Claim C8: horizontal rules -/

theorem step_eq_stepOther (s : PState) (i : Nat) (line : List Char)
    (next : Option (List Char))
    (hm : s.inMathBlock = false) (hc : s.inCodeBlock = false)
    (h1 : (trimChars line == ['$', '$']) = false)
    (h2 : ((trimChars line).take 3 == ['\x60', '\x60', '\x60']) = false)
    (h3 : headIs '#' (trimChars line) = false)
    (h4 : (trimChars line).contains '|' = false) :
    step s i line next = stepOther s i (trimChars line) := by
  have h4m : ¬('|' ∈ trimChars line) := by simpa using h4
  simp [step, h1, hm, h2, hc, h3, h4m]

theorem stepOther_hr (s : PState) (i : Nat) (t : List Char)
    (hq : headIs '>' t = false) (hb : matchBullet t = false)
    (ho : matchOrdered t = false)
    (hhr : (t == ['-', '-', '-'] || t == ['*', '*', '*'] || t == ['_', '_', '_']) = true) :
    ((stepOther s i t).curBlocks).getLast? =
      some { type := .HR, content := "", srcLine := i } := by
  simp only [stepOther, hq, hb, ho, hhr, Bool.or_self, Bool.false_or, if_false,
    Bool.false_eq_true, if_true]
  repeat' split
  all_goals simp [List.getLast?_concat]

/-- C8.  Outside code and math blocks, a line whose trimmed form is exactly
one of the three horizontal-rule markers appends an HR content block to the
current section (after any pending table or blockquote is flushed). -/
theorem claim_c8 (s : PState) (i : Nat) (line : List Char)
    (next : Option (List Char))
    (hc : s.inCodeBlock = false) (hm : s.inMathBlock = false)
    (hhr : trimChars line = ['-', '-', '-'] ∨ trimChars line = ['*', '*', '*'] ∨
      trimChars line = ['_', '_', '_']) :
    ((step s i line next).curBlocks).getLast? =
      some { type := .HR, content := "", srcLine := i } := by
  rcases hhr with h | h | h <;>
  · rw [step_eq_stepOther s i line next hm hc (by rw [h]; rfl) (by rw [h]; rfl)
      (by rw [h]; rfl) (by rw [h]; rfl), h]
    exact stepOther_hr s i _ rfl rfl rfl rfl

/-- C8 witness: a bare `---` line stepped from the initial state. -/
theorem claim_c8_witness :
    ((step initState 0 ['-', '-', '-'] none).curBlocks).getLast? =
      some { type := .HR, content := "", srcLine := 0 } :=
  claim_c8 initState 0 ['-', '-', '-'] none rfl rfl (Or.inl rfl)

/-! ## Claim C5: table detection requires lookahead -/

theorem tableStartOK_not_close (next : Option (List Char))
    (h : tableStartOK next = true) : tableCloseAfter next = false := by
  cases next with
  | none => simp [tableStartOK] at h
  | some raw =>
    simp only [tableStartOK, Bool.and_eq_true] at h
    simp only [tableCloseAfter, Bool.or_eq_false_iff]
    exact ⟨by simpa [List.isEmpty_iff] using h.1.1, by simpa using h.1.2⟩

/-- C5.  Outside any open mode, a `|`-containing line (that is not itself a
fence, heading or `$$` line) starts a table exactly when the following line
contains both `|` and `-`; otherwise it becomes a PARAGRAPH block.  The two
concrete examples evaluate as the claim states: `A|B\nfoo` classifies
`A|B` as a paragraph (followed by the `foo` paragraph), and
`A|B\n---|---\n1|2` yields exactly one TABLE block. -/
theorem claim_c5 :
    (∀ (s : PState) (i : Nat) (line : List Char) (next : Option (List Char)),
      s.inCodeBlock = false → s.inMathBlock = false → s.inTable = false →
      s.inBlockquote = false →
      trimChars line ≠ ['$', '$'] →
      (trimChars line).take 3 ≠ ['\x60', '\x60', '\x60'] →
      headIs '#' (trimChars line) = false →
      (trimChars line).contains '|' = true →
      ((tableStartOK next = false →
        step s i line next =
          { s with curBlocks := s.curBlocks ++
              [{ type := .PARAGRAPH, content := String.mk (trimChars line), srcLine := i }] }) ∧
       (tableStartOK next = true →
        step s i line next =
          { s with inTable := true, tableRows := [trimChars line], tableStart := i }))) ∧
    parseMarkdownToSections "A|B\nfoo" =
      [{ title := "简介", level := 1,
         blocks := [{ type := .PARAGRAPH, content := "A|B", srcLine := 0 },
                    { type := .PARAGRAPH, content := "foo", srcLine := 1 }] }] ∧
    parseMarkdownToSections "A|B\n---|---\n1|2" =
      [{ title := "简介", level := 1,
         blocks := [{ type := .TABLE, content := "",
                      tableData := some { headers := ["A", "B"], rows := [["1", "2"]] },
                      srcLine := 0 }] }] := by
  refine ⟨?_, rfl, rfl⟩
  intro s i line next hc hm ht hq hd hf hh hp
  have hempty : (trimChars line).isEmpty = false := by
    cases htl : trimChars line with
    | nil => rw [htl] at hp; simp [List.contains] at hp
    | cons a b => simp
  constructor
  · intro hlk
    simp only [step, stepPipe, hc, hm, ht, hq, hd, hf, hh, hp, hlk, hempty,
      beq_eq_false_iff_ne, ne_eq]
    simp [beq_iff_eq, hd, hf]
  · intro hlk
    have hclose := tableStartOK_not_close next hlk
    simp only [step, stepPipe, hc, hm, ht, hq, hd, hf, hh, hp, hlk, hclose, hempty,
      beq_eq_false_iff_ne, ne_eq]
    simp [beq_iff_eq, hd, hf]

/-- C5 witness: the step-level classification applied at the initial state
on the line `A|B` with failing and succeeding lookaheads. -/
theorem claim_c5_witness :
    step initState 0 ['A', '|', 'B'] (some ['f', 'o', 'o']) =
      { initState with curBlocks :=
          [{ type := .PARAGRAPH, content := "A|B", srcLine := 0 }] } ∧
    step initState 0 ['A', '|', 'B'] (some ['-', '|', '-']) =
      { initState with inTable := true, tableRows := [['A', '|', 'B']], tableStart := 0 } := by
  constructor
  · have h := (claim_c5.1 initState 0 ['A', '|', 'B'] (some ['f', 'o', 'o'])
      rfl rfl rfl rfl (by decide) (by decide) rfl rfl).1 rfl
    simpa using h
  · have h := (claim_c5.1 initState 0 ['A', '|', 'B'] (some ['-', '|', '-'])
      rfl rfl rfl rfl (by decide) (by decide) rfl rfl).2 rfl
    simpa using h

/-! ## Claim C7: image-mode rasterizer failure falls back to native math -/

/-- The block-math portion of the assembly driver loop: one output element
per math block, in order (the embedded driver is total, so processing never
aborts partway). -/
def processMathBlocks (raster : String → Option ImageBuffer)
    (options : ExportOptions) (latexes : List String) : List DocxElem :=
  latexes.map (blockMathParagraph raster options)

/-- C7.  In image mode, when the external rasterizer returns no image for a
formula, the inline handler emits the native structured lowering of the same
LaTeX source, the block handler emits a centered paragraph holding the
native lowering of the same source, and the driver still emits exactly one
element per block (processing of the remaining blocks continues). -/
theorem claim_c7 (raster : String → Option ImageBuffer)
    (options : ExportOptions) (latex : String)
    (hmode : options.mathMode = MathMode.image)
    (hras : raster latex = none) :
    inlineMathChild raster options latex =
      ParagraphChild.docxMath (convertLatexToDocxMath latex) ∧
    blockMathParagraph raster options latex =
      DocxElem.paragraph [ParagraphChild.docxMath (convertLatexToDocxMath latex)] true ∧
    (∀ latexes : List String,
      (processMathBlocks raster options latexes).length = latexes.length) := by
  refine ⟨?_, ?_, ?_⟩
  · simp [inlineMathChild, hmode, hras]
  · simp [blockMathParagraph, hmode, hras]
  · intro latexes
    simp [processMathBlocks]

/-- C7 witness: a rasterizer that always fails, in image mode, on the
source `x`. -/
theorem claim_c7_witness :
    inlineMathChild (fun _ => none) { chartTheme := "default", mathMode := .image } "x" =
      ParagraphChild.docxMath (convertLatexToDocxMath "x") ∧
    blockMathParagraph (fun _ => none) { chartTheme := "default", mathMode := .image } "x" =
      DocxElem.paragraph [ParagraphChild.docxMath (convertLatexToDocxMath "x")] true ∧
    (∀ latexes : List String,
      (processMathBlocks (fun _ => none)
        { chartTheme := "default", mathMode := .image } latexes).length = latexes.length) :=
  claim_c7 (fun _ => none) { chartTheme := "default", mathMode := .image } "x" rfl rfl

/-! ## Claim C2: order preservation of emitted blocks -/

/-- All blocks emitted so far (flattened across pushed sections, then the
current section), in emission order. -/
def stateBlocks (s : PState) : List ContentBlock :=
  (s.sections.map (fun sec => sec.blocks)).flatten ++ s.curBlocks

/-- The ghost source-line indices of the blocks emitted so far. -/
def stateIdxs (s : PState) : List Nat :=
  (stateBlocks s).map (fun b => b.srcLine)

/-- The flattened block sequence of the parse result (the sequence the
export driver walks, section by section, block by block). -/
def flatBlocks (md : String) : List ContentBlock :=
  ((parseMarkdownToSections md).map (fun sec => sec.blocks)).flatten

/-- The ghost source-line index sequence of the parse result. -/
def blockOrderIdxs (md : String) : List Nat :=
  (flatBlocks md).map (fun b => b.srcLine)

/-- C2 (counterexample).  On the input `> q\na|b` the pipe-containing
second line fails the table lookahead and is pushed as a paragraph without
flushing the open blockquote, so the blockquote from source line 0 is
emitted after the paragraph from source line 1: the flattened output is
not in source order. -/
theorem claim_c2_counterexample :
    blockOrderIdxs "> q\na|b" = [1, 0] ∧
    ¬ List.Chain' (· ≤ ·) (blockOrderIdxs "> q\na|b") := by
  constructor
  · rfl
  · intro h
    rw [show blockOrderIdxs "> q\na|b" = [1, 0] from rfl] at h
    simp [List.chain'_cons] at h

theorem mem_of_mem_getLastQ {l : List Nat} {x : Nat} (h : x ∈ l.getLast?) :
    x ∈ l := by
  rcases List.mem_getLast?_eq_getLast h with ⟨hne, rfl⟩
  exact List.getLast_mem hne

theorem chain_le_append_singleton {l : List Nat} {a : Nat}
    (hch : List.Chain' (· ≤ ·) l) (hle : ∀ n ∈ l, n ≤ a) :
    List.Chain' (· ≤ ·) (l ++ [a]) := by
  refine List.Chain'.append hch (List.chain'_singleton a) ?_
  intro x hx y hy
  simp only [List.head?_cons, Option.mem_def, Option.some_inj] at hy
  subst hy
  exact hle x (mem_of_mem_getLastQ hx)

/-- The ordering invariant maintained along the line loop (for inputs with
no blockquote lines): the emitted ghost indices are non-decreasing, all of
them precede the current line, the blockquote mode is off, any open
buffered mode started no earlier than every emitted block and before the
current line, and the mode flags are mutually exclusive. -/
structure OrderInv (s : PState) (i : Nat) : Prop where
  chain : List.Chain' (· ≤ ·) (stateIdxs s)
  bound : ∀ n ∈ stateIdxs s, n < i
  noQuote : s.inBlockquote = false
  codeB : s.inCodeBlock = true →
    (∀ n ∈ stateIdxs s, n ≤ s.codeStart) ∧ s.codeStart < i
  mathB : s.inMathBlock = true →
    (∀ n ∈ stateIdxs s, n ≤ s.mathStart) ∧ s.mathStart < i
  tblB : s.inTable = true →
    (∀ n ∈ stateIdxs s, n ≤ s.tableStart) ∧ s.tableStart < i
  modes : modeCount s ≤ 1

theorem stateIdxs_flushTable (s : PState) :
    stateIdxs (flushTable s) = stateIdxs s ∨
    stateIdxs (flushTable s) = stateIdxs s ++ [s.tableStart] := by
  simp only [flushTable]
  split
  · exact Or.inl rfl
  · split
    · exact Or.inr (by simp [stateIdxs, stateBlocks])
    · exact Or.inl rfl

theorem stateIdxs_flushCodeBlock (s : PState) :
    stateIdxs (flushCodeBlock s) = stateIdxs s ∨
    stateIdxs (flushCodeBlock s) = stateIdxs s ++ [s.codeStart] := by
  simp only [flushCodeBlock]
  split
  · exact Or.inl rfl
  · exact Or.inr (by simp [stateIdxs, stateBlocks])

theorem stateIdxs_flushMathBlock (s : PState) :
    stateIdxs (flushMathBlock s) = stateIdxs s ∨
    stateIdxs (flushMathBlock s) = stateIdxs s ++ [s.mathStart] := by
  simp only [flushMathBlock]
  split
  · exact Or.inl rfl
  · exact Or.inr (by simp [stateIdxs, stateBlocks])

theorem stateIdxs_flushBlockquote (s : PState) :
    stateIdxs (flushBlockquote s) = stateIdxs s ∨
    stateIdxs (flushBlockquote s) = stateIdxs s ++ [s.quoteStart] := by
  simp only [flushBlockquote]
  split
  · exact Or.inl rfl
  · exact Or.inr (by simp [stateIdxs, stateBlocks])

/-- Flushing a buffer whose start index dominates every emitted index and
precedes `i` keeps the index chain sorted and bounded by `i`. -/
theorem flush_chain_bound (st : Nat) {s : PState} {i : Nat} {t : PState}
    (hidx : stateIdxs t = stateIdxs s ∨ stateIdxs t = stateIdxs s ++ [st])
    (hch : List.Chain' (· ≤ ·) (stateIdxs s))
    (hb : ∀ n ∈ stateIdxs s, n < i)
    (hle : ∀ n ∈ stateIdxs s, n ≤ st) (hst : st < i) :
    List.Chain' (· ≤ ·) (stateIdxs t) ∧ ∀ n ∈ stateIdxs t, n < i := by
  rcases hidx with h | h <;> rw [h]
  · exact ⟨hch, hb⟩
  · refine ⟨chain_le_append_singleton hch hle, ?_⟩
    intro n hn
    rcases List.mem_append.mp hn with hn | hn
    · exact hb n hn
    · simp only [List.mem_singleton] at hn
      subst hn
      exact hst

theorem modes_of_math {s : PState} (h : modeCount s ≤ 1)
    (hm : s.inMathBlock = true) :
    s.inCodeBlock = false ∧ s.inTable = false ∧ s.inBlockquote = false := by
  cases hc : s.inCodeBlock <;> cases ht : s.inTable <;> cases hq : s.inBlockquote <;>
    simp_all [modeCount]

theorem modes_of_code {s : PState} (h : modeCount s ≤ 1)
    (hc : s.inCodeBlock = true) :
    s.inMathBlock = false ∧ s.inTable = false ∧ s.inBlockquote = false := by
  cases hm : s.inMathBlock <;> cases ht : s.inTable <;> cases hq : s.inBlockquote <;>
    simp_all [modeCount]

/-- The conditional table flush that guards every mode entry. -/
def condFlushT (s : PState) : PState :=
  if s.inTable then flushTable { s with inTable := false } else s

theorem condFlushT_eq (s : PState) :
    (if s.inTable = true then flushTable { s with inTable := false } else s) =
      condFlushT s := rfl

theorem condFlushT_chain (s : PState) (i : Nat) (inv : OrderInv s i) :
    List.Chain' (· ≤ ·) (stateIdxs (condFlushT s)) ∧
    ∀ n ∈ stateIdxs (condFlushT s), n < i := by
  unfold condFlushT
  split
  · next ht =>
    obtain ⟨hle, hlt⟩ := inv.tblB ht
    exact flush_chain_bound _ (stateIdxs_flushTable _) inv.chain inv.bound hle hlt
  · exact ⟨inv.chain, inv.bound⟩

theorem condFlushT_inTable (s : PState) : (condFlushT s).inTable = false := by
  unfold condFlushT
  split
  · simp
  · next h => simpa using h

theorem condFlushT_inCodeBlock (s : PState) :
    (condFlushT s).inCodeBlock = s.inCodeBlock := by
  unfold condFlushT
  split <;> simp

theorem condFlushT_inMathBlock (s : PState) :
    (condFlushT s).inMathBlock = s.inMathBlock := by
  unfold condFlushT
  split <;> simp

theorem condFlushT_inBlockquote (s : PState) :
    (condFlushT s).inBlockquote = s.inBlockquote := by
  unfold condFlushT
  split <;> simp

theorem condFlushT_curTitle (s : PState) :
    (condFlushT s).curTitle = s.curTitle := by
  unfold condFlushT
  split <;> simp

theorem condFlushT_curLevel (s : PState) :
    (condFlushT s).curLevel = s.curLevel := by
  unfold condFlushT
  split <;> simp

theorem stepMathFence_orderInv (s : PState) (i : Nat) (line : List Char)
    (inv : OrderInv s i) : OrderInv (stepMathFence s i line) (i + 1) := by
  simp only [stepMathFence]
  split
  · next hm =>
    obtain ⟨hle, hlt⟩ := inv.mathB hm
    obtain ⟨hcf, htf, hqf⟩ := modes_of_math inv.modes hm
    obtain ⟨hch, hbd⟩ := flush_chain_bound _
      (stateIdxs_flushMathBlock { s with inMathBlock := false })
      inv.chain inv.bound hle hlt
    refine ⟨hch, fun n hn => Nat.lt_succ_of_lt (hbd n hn), by simpa using hqf,
      ?_, ?_, ?_, ?_⟩
    · intro hcode
      rw [flushMathBlock_inCodeBlock] at hcode
      simp only at hcode
      rw [hcf] at hcode
      exact absurd hcode (by simp)
    · intro hmath
      rw [flushMathBlock_inMathBlock] at hmath
      simp only at hmath
      exact absurd hmath (by simp)
    · intro htbl
      rw [flushMathBlock_inTable] at htbl
      simp only at htbl
      rw [htf] at htbl
      exact absurd htbl (by simp)
    · simp [modeCount, hcf, htf, hqf]
  · split
    · next hcode =>
      refine ⟨inv.chain, fun n hn => Nat.lt_succ_of_lt (inv.bound n hn),
        inv.noQuote, ?_, ?_, ?_, inv.modes⟩
      · intro h
        exact ⟨(inv.codeB h).1, Nat.lt_succ_of_lt (inv.codeB h).2⟩
      · intro h
        exact ⟨(inv.mathB h).1, Nat.lt_succ_of_lt (inv.mathB h).2⟩
      · intro h
        exact ⟨(inv.tblB h).1, Nat.lt_succ_of_lt (inv.tblB h).2⟩
    · next hm hcode =>
      rw [condFlushT_eq, condFlushT_inBlockquote, inv.noQuote]
      simp only [Bool.false_eq_true, if_false]
      obtain ⟨hch, hbd⟩ := condFlushT_chain s i inv
      refine ⟨hch, fun n hn => Nat.lt_succ_of_lt (hbd n hn),
        by simp [condFlushT_inBlockquote, inv.noQuote], ?_, ?_, ?_, ?_⟩
      · intro h
        simp only [condFlushT_inCodeBlock] at h
        simp [h] at hcode
      · intro _
        exact ⟨fun n hn => Nat.le_of_lt (hbd n hn), Nat.lt_succ_self i⟩
      · intro h
        simp [condFlushT_inTable] at h
      · simp [modeCount, condFlushT_inTable, condFlushT_inCodeBlock,
          condFlushT_inMathBlock, condFlushT_inBlockquote, inv.noQuote]
        simp only [Bool.not_eq_true] at hcode
        simp [hcode]

theorem stepCodeFence_orderInv (s : PState) (i : Nat) (t : List Char)
    (hm : s.inMathBlock = false)
    (inv : OrderInv s i) : OrderInv (stepCodeFence s i t) (i + 1) := by
  simp only [stepCodeFence]
  split
  · next hcode =>
    obtain ⟨hle, hlt⟩ := inv.codeB hcode
    obtain ⟨hmf, htf, hqf⟩ := modes_of_code inv.modes hcode
    obtain ⟨hch, hbd⟩ := flush_chain_bound _
      (stateIdxs_flushCodeBlock { s with inCodeBlock := false })
      inv.chain inv.bound hle hlt
    refine ⟨hch, fun n hn => Nat.lt_succ_of_lt (hbd n hn), by simpa using hqf,
      ?_, ?_, ?_, ?_⟩
    · intro hcode2
      rw [flushCodeBlock_inCodeBlock] at hcode2
      simp only at hcode2
      exact absurd hcode2 (by simp)
    · intro hmath
      rw [flushCodeBlock_inMathBlock] at hmath
      simp only at hmath
      rw [hmf] at hmath
      exact absurd hmath (by simp)
    · intro htbl
      rw [flushCodeBlock_inTable] at htbl
      simp only at htbl
      rw [htf] at htbl
      exact absurd htbl (by simp)
    · simp [modeCount, hmf, htf, hqf]
  · next hcode =>
    rw [condFlushT_eq, condFlushT_inBlockquote, inv.noQuote]
    simp only [Bool.false_eq_true, if_false]
    obtain ⟨hch, hbd⟩ := condFlushT_chain s i inv
    refine ⟨hch, fun n hn => Nat.lt_succ_of_lt (hbd n hn),
      by simp [condFlushT_inBlockquote, inv.noQuote], ?_, ?_, ?_, ?_⟩
    · intro _
      exact ⟨fun n hn => Nat.le_of_lt (hbd n hn), Nat.lt_succ_self i⟩
    · intro h
      simp only [condFlushT_inMathBlock] at h
      simp [h] at hm
    · intro h
      simp [condFlushT_inTable] at h
    · simp [modeCount, condFlushT_inTable, condFlushT_inCodeBlock,
        condFlushT_inMathBlock, condFlushT_inBlockquote, inv.noQuote, hm]

theorem modes_of_table {s : PState} (h : modeCount s ≤ 1)
    (ht : s.inTable = true) :
    s.inCodeBlock = false ∧ s.inMathBlock = false ∧ s.inBlockquote = false := by
  cases hc : s.inCodeBlock <;> cases hm : s.inMathBlock <;> cases hq : s.inBlockquote <;>
    simp_all [modeCount]

theorem stateIdxs_stepHeader (s : PState) (i : Nat) (t : List Char)
    (hq : s.inBlockquote = false) :
    stateIdxs (stepHeader s i t) = stateIdxs (condFlushT s) := by
  simp only [stepHeader]
  rw [condFlushT_eq, condFlushT_inBlockquote, hq]
  simp only [Bool.false_eq_true, if_false]
  split
  · next hemp =>
    simp only [List.isEmpty_iff] at hemp
    simp [stateIdxs, stateBlocks, hemp]
  · simp [stateIdxs, stateBlocks]

theorem stepHeader_inBlockquote (s : PState) (i : Nat) (t : List Char) :
    (stepHeader s i t).inBlockquote = false := by
  simp only [stepHeader]
  repeat' split
  all_goals simp_all

theorem stepHeader_inTable (s : PState) (i : Nat) (t : List Char) :
    (stepHeader s i t).inTable = false := by
  simp only [stepHeader]
  repeat' split
  all_goals simp_all

theorem stepHeader_inCodeBlock (s : PState) (i : Nat) (t : List Char) :
    (stepHeader s i t).inCodeBlock = s.inCodeBlock := by
  simp only [stepHeader]
  repeat' split
  all_goals simp_all

theorem stepHeader_inMathBlock (s : PState) (i : Nat) (t : List Char) :
    (stepHeader s i t).inMathBlock = s.inMathBlock := by
  simp only [stepHeader]
  repeat' split
  all_goals simp_all

theorem stepHeader_orderInv (s : PState) (i : Nat) (t : List Char)
    (hm : s.inMathBlock = false) (hcode : s.inCodeBlock = false)
    (inv : OrderInv s i) : OrderInv (stepHeader s i t) (i + 1) := by
  obtain ⟨hch, hbd⟩ := condFlushT_chain s i inv
  refine ⟨?_, ?_, stepHeader_inBlockquote s i t, ?_, ?_, ?_, ?_⟩
  · rw [stateIdxs_stepHeader s i t inv.noQuote]
    exact hch
  · rw [stateIdxs_stepHeader s i t inv.noQuote]
    exact fun n hn => Nat.lt_succ_of_lt (hbd n hn)
  · intro h
    rw [stepHeader_inCodeBlock, hcode] at h
    exact absurd h (by simp)
  · intro h
    rw [stepHeader_inMathBlock, hm] at h
    exact absurd h (by simp)
  · intro h
    rw [stepHeader_inTable] at h
    exact absurd h (by simp)
  · simp [modeCount, stepHeader_inBlockquote, stepHeader_inTable,
      stepHeader_inCodeBlock, stepHeader_inMathBlock, hm, hcode]

theorem orderInv_pushCondFlush (s : PState) (i : Nat) (inv : OrderInv s i)
    (hm : s.inMathBlock = false) (hcode : s.inCodeBlock = false)
    (b : ContentBlock) (hb : b.srcLine = i) :
    OrderInv { condFlushT s with curBlocks := (condFlushT s).curBlocks ++ [b] } (i + 1) := by
  obtain ⟨hch, hbd⟩ := condFlushT_chain s i inv
  have hidx : stateIdxs { condFlushT s with curBlocks := (condFlushT s).curBlocks ++ [b] } =
      stateIdxs (condFlushT s) ++ [b.srcLine] := by
    simp [stateIdxs, stateBlocks]
  refine ⟨?_, ?_, by simp [condFlushT_inBlockquote, inv.noQuote], ?_, ?_, ?_, ?_⟩
  · rw [hidx, hb]
    exact chain_le_append_singleton hch (fun n hn => Nat.le_of_lt (hbd n hn))
  · rw [hidx, hb]
    intro n hn
    rcases List.mem_append.mp hn with hn | hn
    · exact Nat.lt_succ_of_lt (hbd n hn)
    · simp only [List.mem_singleton] at hn
      omega
  · intro h
    simp only [condFlushT_inCodeBlock] at h
    rw [hcode] at h
    exact absurd h (by simp)
  · intro h
    simp only [condFlushT_inMathBlock] at h
    rw [hm] at h
    exact absurd h (by simp)
  · intro h
    simp only [condFlushT_inTable] at h
    exact absurd h (by simp)
  · simp [modeCount, condFlushT_inTable, condFlushT_inCodeBlock,
      condFlushT_inMathBlock, condFlushT_inBlockquote, inv.noQuote, hm, hcode]

theorem stepOther_orderInv (s : PState) (i : Nat) (t : List Char)
    (hm : s.inMathBlock = false) (hcode : s.inCodeBlock = false)
    (hq : headIs '>' t = false)
    (inv : OrderInv s i) : OrderInv (stepOther s i t) (i + 1) := by
  have hs1 : (if s.inBlockquote = true then
      flushBlockquote { s with inBlockquote := false } else s) = s := by
    rw [inv.noQuote]
    simp
  simp only [stepOther, hq, Bool.false_eq_true, if_false]
  rw [hs1, condFlushT_eq]
  split
  · exact orderInv_pushCondFlush s i inv hm hcode _ rfl
  split
  · exact orderInv_pushCondFlush s i inv hm hcode _ rfl
  split
  · exact orderInv_pushCondFlush s i inv hm hcode _ rfl
  · refine ⟨inv.chain, fun n hn => Nat.lt_succ_of_lt (inv.bound n hn),
      inv.noQuote, ?_, ?_, ?_, inv.modes⟩
    · intro h
      exact ⟨(inv.codeB h).1, Nat.lt_succ_of_lt (inv.codeB h).2⟩
    · intro h
      exact ⟨(inv.mathB h).1, Nat.lt_succ_of_lt (inv.mathB h).2⟩
    · intro h
      exact ⟨(inv.tblB h).1, Nat.lt_succ_of_lt (inv.tblB h).2⟩

theorem OrderInv.succ {s : PState} {i : Nat} (inv : OrderInv s i) :
    OrderInv s (i + 1) :=
  ⟨inv.chain, fun n hn => Nat.lt_succ_of_lt (inv.bound n hn), inv.noQuote,
   fun h => ⟨(inv.codeB h).1, Nat.lt_succ_of_lt (inv.codeB h).2⟩,
   fun h => ⟨(inv.mathB h).1, Nat.lt_succ_of_lt (inv.mathB h).2⟩,
   fun h => ⟨(inv.tblB h).1, Nat.lt_succ_of_lt (inv.tblB h).2⟩,
   inv.modes⟩

theorem orderInv_push (s : PState) (i : Nat) (inv : OrderInv s i)
    (hm : s.inMathBlock = false) (hcode : s.inCodeBlock = false)
    (htf : s.inTable = false) (b : ContentBlock) (hb : b.srcLine = i) :
    OrderInv { s with curBlocks := s.curBlocks ++ [b] } (i + 1) := by
  have hidx : stateIdxs { s with curBlocks := s.curBlocks ++ [b] } =
      stateIdxs s ++ [b.srcLine] := by
    simp [stateIdxs, stateBlocks]
  refine ⟨?_, ?_, inv.noQuote, ?_, ?_, ?_, inv.modes⟩
  · rw [hidx, hb]
    exact chain_le_append_singleton inv.chain (fun n hn => Nat.le_of_lt (inv.bound n hn))
  · rw [hidx, hb]
    intro n hn
    rcases List.mem_append.mp hn with hn | hn
    · exact Nat.lt_succ_of_lt (inv.bound n hn)
    · simp only [List.mem_singleton] at hn
      omega
  · intro h
    rw [hcode] at h
    exact absurd h (by simp)
  · intro h
    rw [hm] at h
    exact absurd h (by simp)
  · intro h
    rw [htf] at h
    exact absurd h (by simp)

theorem condFlushQ_noop (u : PState) (h : u.inBlockquote = false) :
    (if u.inBlockquote = true then flushBlockquote { u with inBlockquote := false }
     else u) = u := by
  rw [h]
  simp

/-- Flushing a table whose start index dominates every emitted index and
precedes `i + 1`, from a state whose other modes are all off, restores the
ordering invariant at `i + 1`. -/
theorem orderInv_flushTable (R : PState) {s : PState} {i : Nat}
    (inv : OrderInv s i)
    (hidx : stateIdxs R = stateIdxs s)
    (hle : ∀ n ∈ stateIdxs s, n ≤ R.tableStart)
    (hlt : R.tableStart < i + 1)
    (hcb : R.inCodeBlock = false) (hmb : R.inMathBlock = false)
    (hit : R.inTable = false) (hbq : R.inBlockquote = false) :
    OrderInv (flushTable R) (i + 1) := by
  obtain ⟨hch, hbd⟩ := flush_chain_bound R.tableStart (stateIdxs_flushTable R)
    (by rw [hidx]; exact inv.chain)
    (by rw [hidx]; exact fun n hn => Nat.lt_succ_of_lt (inv.bound n hn))
    (by rw [hidx]; exact hle) hlt
  refine ⟨hch, hbd, ?_, ?_, ?_, ?_, ?_⟩
  · rw [flushTable_inBlockquote, hbq]
  · intro h
    rw [flushTable_inCodeBlock, hcb] at h
    exact absurd h (by simp)
  · intro h
    rw [flushTable_inMathBlock, hmb] at h
    exact absurd h (by simp)
  · intro h
    rw [flushTable_inTable, hit] at h
    exact absurd h (by simp)
  · simp [modeCount, flushTable_inCodeBlock, flushTable_inMathBlock,
      flushTable_inTable, flushTable_inBlockquote, hcb, hmb, hit, hbq]

/-- A state that only keeps accumulating rows in an open table (same
emitted blocks, table start still dominating) keeps the ordering invariant
at `i + 1`. -/
theorem orderInv_tableStay (R : PState) {s : PState} {i : Nat}
    (inv : OrderInv s i)
    (hidx : stateIdxs R = stateIdxs s)
    (hle : ∀ n ∈ stateIdxs s, n ≤ R.tableStart)
    (hlt : R.tableStart < i + 1)
    (hcb : R.inCodeBlock = false) (hmb : R.inMathBlock = false)
    (hit : R.inTable = true) (hbq : R.inBlockquote = false) :
    OrderInv R (i + 1) := by
  refine ⟨?_, ?_, hbq, ?_, ?_, ?_, ?_⟩
  · rw [hidx]
    exact inv.chain
  · rw [hidx]
    exact fun n hn => Nat.lt_succ_of_lt (inv.bound n hn)
  · intro h
    rw [hcb] at h
    exact absurd h (by simp)
  · intro h
    rw [hmb] at h
    exact absurd h (by simp)
  · intro _
    exact ⟨fun n hn => hle n (by rwa [hidx] at hn), hlt⟩
  · simp [modeCount, hcb, hmb, hit, hbq]

theorem stepPipe_orderInv (s : PState) (i : Nat) (t : List Char)
    (next : Option (List Char))
    (hm : s.inMathBlock = false) (hcode : s.inCodeBlock = false)
    (inv : OrderInv s i) : OrderInv (stepPipe s i t next) (i + 1) := by
  simp only [stepPipe]
  split
  · next hnt =>
    have htf : s.inTable = false := by simpa using hnt
    split
    · next hlk =>
      rw [condFlushQ_noop
        { s with inTable := true, tableRows := ([] : List (List Char)), tableStart := i }
        inv.noQuote]
      split
      · exact orderInv_flushTable _ inv rfl
          (fun n hn => Nat.le_of_lt (inv.bound n hn)) (Nat.lt_succ_self i)
          hcode hm rfl inv.noQuote
      · exact orderInv_tableStay _ inv rfl
          (fun n hn => Nat.le_of_lt (inv.bound n hn)) (Nat.lt_succ_self i)
          hcode hm rfl inv.noQuote
    · next hlk =>
      split
      · exact inv.succ
      · refine orderInv_push s i inv hm hcode htf _ ?_
        rfl
  · next hnt =>
    have ht : s.inTable = true := by simpa using hnt
    obtain ⟨hle, hlt⟩ := inv.tblB ht
    split
    · exact orderInv_flushTable _ inv rfl hle (Nat.lt_succ_of_lt hlt)
        hcode hm rfl inv.noQuote
    · exact orderInv_tableStay _ inv rfl hle (Nat.lt_succ_of_lt hlt)
        hcode hm ht inv.noQuote

/-- Any single loop iteration on a non-blockquote line preserves the
ordering invariant. -/
theorem step_orderInv (s : PState) (i : Nat) (line : List Char)
    (next : Option (List Char))
    (hq : headIs '>' (trimChars line) = false)
    (inv : OrderInv s i) : OrderInv (step s i line next) (i + 1) := by
  simp only [step]
  split
  · exact stepMathFence_orderInv s i line inv
  split
  · exact ⟨inv.chain, fun n hn => Nat.lt_succ_of_lt (inv.bound n hn), inv.noQuote,
      fun h => ⟨(inv.codeB h).1, Nat.lt_succ_of_lt (inv.codeB h).2⟩,
      fun h => ⟨(inv.mathB h).1, Nat.lt_succ_of_lt (inv.mathB h).2⟩,
      fun h => ⟨(inv.tblB h).1, Nat.lt_succ_of_lt (inv.tblB h).2⟩,
      inv.modes⟩
  next hm0 =>
    split
    · exact stepCodeFence_orderInv s i _ (by simpa using hm0) inv
    split
    · exact ⟨inv.chain, fun n hn => Nat.lt_succ_of_lt (inv.bound n hn), inv.noQuote,
        fun h => ⟨(inv.codeB h).1, Nat.lt_succ_of_lt (inv.codeB h).2⟩,
        fun h => ⟨(inv.mathB h).1, Nat.lt_succ_of_lt (inv.mathB h).2⟩,
        fun h => ⟨(inv.tblB h).1, Nat.lt_succ_of_lt (inv.tblB h).2⟩,
        inv.modes⟩
    next hc0 =>
      split
      · exact stepHeader_orderInv s i _ (by simpa using hm0) (by simpa using hc0) inv
      split
      · exact stepPipe_orderInv s i _ next (by simpa using hm0) (by simpa using hc0) inv
      · exact stepOther_orderInv s i _ (by simpa using hm0) (by simpa using hc0) hq inv

/-- The line loop preserves the ordering invariant on inputs with no
blockquote lines. -/
theorem runLines_orderInv (ls : List (List Char)) :
    ∀ (s : PState) (i : Nat),
      (∀ l ∈ ls, headIs '>' (trimChars l) = false) →
      OrderInv s i → OrderInv (runLines s i ls) (i + ls.length) := by
  induction ls with
  | nil =>
    intro s i _ inv
    simpa [runLines] using inv
  | cons l rest ih =>
    intro s i hq inv
    have h1 := step_orderInv s i l rest.head? (hq l (List.mem_cons_self l rest)) inv
    have h2 := ih (step s i l rest.head?) (i + 1)
      (fun x hx => hq x (List.mem_cons_of_mem _ hx)) h1
    rw [show i + (l :: rest).length = i + 1 + rest.length from by
      simp [List.length_cons]; omega]
    simpa [runLines] using h2

/-- The end-of-loop section emission flattens exactly to the emitted block
sequence of the state. -/
theorem emitIdxs_eq (u : PState) :
    (((if u.curBlocks.isEmpty then u.sections
       else u.sections ++ [⟨u.curTitle, u.curLevel, u.curBlocks⟩]).map
        (fun sec => sec.blocks)).flatten).map (fun b => b.srcLine) = stateIdxs u := by
  split
  · next he =>
    have hcb : u.curBlocks = [] := by simpa using he
    simp [stateIdxs, stateBlocks, hcb]
  · simp [stateIdxs, stateBlocks]

theorem chain_emit {u : PState}
    (hch : List.Chain' (· ≤ ·) (stateIdxs u)) :
    List.Chain' (· ≤ ·)
      ((((if u.curBlocks.isEmpty then u.sections
          else u.sections ++ [⟨u.curTitle, u.curLevel, u.curBlocks⟩]).map
           (fun sec => sec.blocks)).flatten).map (fun b => b.srcLine)) := by
  rw [emitIdxs_eq]
  exact hch

/-- Finalizing a state that satisfies the ordering invariant yields a
sorted flattened ghost-index sequence. -/
theorem finalIdxs_chain {s : PState} {i : Nat} (inv : OrderInv s i) :
    List.Chain' (· ≤ ·)
      ((((finalizeState s).map (fun sec => sec.blocks)).flatten).map
        (fun b => b.srcLine)) := by
  simp only [finalizeState]
  cases ht : s.inTable with
  | true =>
    obtain ⟨hcf, hmf, _⟩ := modes_of_table inv.modes ht
    obtain ⟨hle, hlt⟩ := inv.tblB ht
    rw [if_pos rfl, flushTable_inCodeBlock, hcf, if_neg (show ¬(false = true) by simp),
      flushTable_inMathBlock, hmf, if_neg (show ¬(false = true) by simp),
      flushTable_inBlockquote, inv.noQuote, if_neg (show ¬(false = true) by simp)]
    exact chain_emit (flush_chain_bound s.tableStart (stateIdxs_flushTable s)
      inv.chain inv.bound hle hlt).1
  | false =>
    rw [if_neg (show ¬(false = true) by simp)]
    cases hc : s.inCodeBlock with
    | true =>
      obtain ⟨hmf, _, _⟩ := modes_of_code inv.modes hc
      obtain ⟨hle, hlt⟩ := inv.codeB hc
      rw [if_pos rfl, flushCodeBlock_inMathBlock, hmf, if_neg (show ¬(false = true) by simp),
        flushCodeBlock_inBlockquote, inv.noQuote, if_neg (show ¬(false = true) by simp)]
      exact chain_emit (flush_chain_bound s.codeStart (stateIdxs_flushCodeBlock s)
        inv.chain inv.bound hle hlt).1
    | false =>
      rw [if_neg (show ¬(false = true) by simp)]
      cases hmm : s.inMathBlock with
      | true =>
        obtain ⟨hle, hlt⟩ := inv.mathB hmm
        rw [if_pos rfl, flushMathBlock_inBlockquote, inv.noQuote, if_neg (show ¬(false = true) by simp)]
        exact chain_emit (flush_chain_bound s.mathStart (stateIdxs_flushMathBlock s)
          inv.chain inv.bound hle hlt).1
      | false =>
        rw [if_neg (show ¬(false = true) by simp), inv.noQuote, if_neg (show ¬(false = true) by simp)]
        exact chain_emit inv.chain

theorem orderInv_init : OrderInv initState 0 := by
  refine ⟨?_, ?_, rfl, ?_, ?_, ?_, ?_⟩ <;>
    simp [stateIdxs, stateBlocks, initState, modeCount]

/-- C2 (amended).  On any input whose lines never start (after trimming)
with the blockquote marker, the assembly driver receives the blocks in
source order: the flattened ghost source-line indices of
`parseMarkdownToSections` are non-decreasing.  (The original claim fails
for blockquote inputs: see the counterexample.) -/
theorem claim_c2 (md : String)
    (hq : ∀ l ∈ splitOnChar '
' md.data, headIs '>' (trimChars l) = false) :
    List.Chain' (· ≤ ·) (blockOrderIdxs md) := by
  have inv := runLines_orderInv (splitOnChar '
' md.data) initState 0 hq orderInv_init
  exact finalIdxs_chain inv

theorem claim_c2_witness :
    List.Chain' (· ≤ ·) (blockOrderIdxs "a\n# T\nb|c\n|h|\n|-|\n|1|") :=
  claim_c2 "a\n# T\nb|c\n|h|\n|-|\n|1|" (by decide)

end Markdown2Word
